import Mathlib

/-!
Verification of the workflow canonicalization and equivalence engine of
barakapa-nodes (src/custom_nodes/utils.py and src/custom_nodes/workflow.py).

The JSON-like values the engine operates on (Python type alias
`Json = dict[str, Json] | list[Json] | str | int | float | bool`) are embedded
as the inductive `Json` below.  Python dicts are modelled as association lists
in insertion order (Python dicts iterate in insertion order; keys are unique in
any dict produced by Python, so theorems that depend on key uniqueness carry a
`Nodup` hypothesis).  Python floats are modelled by their exact rational
values (`ℚ`); `round` and `math.isclose` are given their exact real-number
semantics on those rationals, leaving out the final rounding of every
intermediate result to 53-bit binary doubles.  Fallible code (Python `raise`)
is modelled with `Except Err`.
-/

/-- Lexicographic comparison of char lists by Unicode code point, mirroring
Python's `<` on strings (which compares code points left to right). -/
def charsLt : List Char → List Char → Bool
  | [], [] => false
  | [], _ :: _ => true
  | _ :: _, [] => false
  | c :: cs, d :: ds =>
    if c.toNat < d.toNat then true
    else if d.toNat < c.toNat then false
    else charsLt cs ds

/-- Python `a < b` on strings. -/
def strLt (a b : String) : Bool := charsLt a.data b.data

/-- Python `a <= b` on strings (total order, so `a <= b` iff `not (b < a)`). -/
def strLe (a b : String) : Bool := !(strLt b a)

/-- The JSON-like values of the Python code: the `Json` type alias
`dict[str, Json] | list[Json] | str | int | float | bool` (no null).
Floats carry their exact rational value. -/
inductive Json where
  | str (s : String)
  | int (n : Int)
  | float (q : Rat)
  | bool (b : Bool)
  | arr (l : List Json)
  | obj (l : List (String × Json))

/-- Hexadecimal digit characters, lowercase as produced by `json.dumps`. -/
def hexDigit (n : Nat) : Char :=
  if n < 10 then Char.ofNat (48 + n) else Char.ofNat (87 + n)

/-- Four-digit hexadecimal rendering used in `\uXXXX` escapes. -/
def hex4 (n : Nat) : String :=
  String.mk [hexDigit (n / 4096 % 16), hexDigit (n / 256 % 16),
             hexDigit (n / 16 % 16), hexDigit (n % 16)]

/-- Escaping of one character inside a JSON string literal, as done by
`json.dumps` with its default `ensure_ascii=True`: the two-character escapes
for `"`, `\`, and the common control characters, `\uXXXX` for the remaining
control characters and for all non-ASCII characters.  (Code points above
`0xFFFF` are emitted by Python as surrogate pairs; that case is rendered here
as a single `\uXXXX` — no string in any theorem below contains such a
character.) -/
def escapeChar (c : Char) : String :=
  if c = '"' then "\\\""
  else if c = '\\' then "\\\\"
  else if c = '\n' then "\\n"
  else if c = '\t' then "\\t"
  else if c = '\r' then "\\r"
  else if c.val = 8 then "\\b"
  else if c.val = 12 then "\\f"
  else if c.val < 32 ∨ 127 ≤ c.val then "\\u" ++ hex4 c.toNat
  else String.mk [c]

/-- A JSON string literal: `"` + escaped characters + `"`. -/
def quoteJson (s : String) : String :=
  "\"" ++ String.join (s.data.map escapeChar) ++ "\""

/-- Rendering of a float by `json.dumps` (Python `repr`).  Python prints the
shortest decimal string that round-trips through the 53-bit double; on the
exact-rational model this is approximated by the terminating decimal expansion
when one exists within 17 fractional digits (covering every value the
normalizer below can produce) and a fraction rendering otherwise.  No theorem
in this file evaluates `stringify` at a float leaf, so no proof depends on
this rendering. -/
def floatRepr (q : Rat) : String :=
  match (List.range 18).find? (fun p => (q * 10 ^ p).den = 1) with
  | some 0 => toString q.num ++ ".0"
  | some p =>
    let scaled : Int := (q * 10 ^ p).num
    let sign : String := if scaled < 0 then "-" else ""
    let digits : String := toString scaled.natAbs
    let padded : String :=
      if digits.length ≤ p then String.mk (List.replicate (p + 1 - digits.length) '0') ++ digits
      else digits
    sign ++ String.mk (padded.data.take (padded.length - p)) ++ "." ++
      String.mk (padded.data.drop (padded.length - p))
  | none => toString q.num ++ "/" ++ toString q.den

mutual

/-- `utils.stringify`: `json.dumps(obj, separators=(',', ':'))` — compact
serialization with `,` and `:` separators and no whitespace.  Dict entries are
emitted in iteration (insertion) order. -/
def stringify : Json → String
  | .str s => quoteJson s
  | .int n => toString n
  | .float q => floatRepr q
  | .bool b => if b then "true" else "false"
  | .arr l => "[" ++ stringifyList l ++ "]"
  | .obj l => "\x7b" ++ stringifyPairs l ++ "\x7d"
termination_by structural j => j

/-- Comma-separated rendering of array elements. -/
def stringifyList : List Json → String
  | [] => ""
  | [x] => stringify x
  | x :: y :: xs => stringify x ++ "," ++ stringifyList (y :: xs)
termination_by structural l => l

/-- Comma-separated rendering of object entries (`"key":value`). -/
def stringifyPairs : List (String × Json) → String
  | [] => ""
  | [(k, v)] => quoteJson k ++ ":" ++ stringify v
  | (k, v) :: y :: xs => quoteJson k ++ ":" ++ stringify v ++ "," ++ stringifyPairs (y :: xs)
termination_by structural l => l

end

/-- `utils.compare_json`: compares the `stringify` serializations, returning
`(s1 > s2) - (s1 < s2)`, i.e. 0 iff the strings are identical. -/
def compare_json (obj1 obj2 : Json) : Int :=
  (if strLt (stringify obj2) (stringify obj1) then 1 else 0) -
    (if strLt (stringify obj1) (stringify obj2) then 1 else 0)

/-- `utils.FLOAT_COMPARISON_EPSILON = 1e-9`. -/
def FLOAT_COMPARISON_EPSILON : Rat := 1 / 10 ^ 9

/-- The default `rel_tol` of Python's `math.isclose`, which the code leaves at
its default `1e-9` (it passes only `abs_tol`). -/
def ISCLOSE_DEFAULT_REL_TOL : Rat := 1 / 10 ^ 9

/-- `math.isclose(a, b, rel_tol, abs_tol)` on exact rationals:
`abs(a-b) <= max(rel_tol * max(abs(a), abs(b)), abs_tol)`. -/
def isclose (a b relTol absTol : Rat) : Bool :=
  decide (|a - b| ≤ max (relTol * max |a| |b|) absTol)

/-- Round-half-to-even on an exact rational, the rounding mode of Python's
built-in `round`. -/
def roundHalfEven (x : Rat) : Int :=
  let f : Int := ⌊x⌋
  let r : Rat := x - f
  if r < 1 / 2 then f
  else if 1 / 2 < r then f + 1
  else if f % 2 = 0 then f else f + 1

/-- Python `round(x, p)` for `p ≥ 0` on the exact-rational model: round
half-to-even at the `p`-th decimal place. -/
def pyRound (x : Rat) (p : Nat) : Rat :=
  (roundHalfEven (x * 10 ^ p) : Rat) / 10 ^ p

/-- `utils.normalize_float`: try `precision in range(16)` and return
`round(x, precision)` for the first precision with
`isclose(x, rounded, abs_tol=epsilon)` (`rel_tol` left at its default), else
return `x` unchanged. -/
def normalize_float (x epsilon : Rat) : Rat :=
  match (List.range 16).find?
      (fun p => isclose x (pyRound x p) ISCLOSE_DEFAULT_REL_TOL epsilon) with
  | some p => pyRound x p
  | none => x

/-- The key-order used when canonicalizing an object: Python sorts the pairs
`(k, canonicalize_json(v))` as tuples, which compares the key strings first
and examines the values only when two keys are equal — impossible for the
pairs of a Python dict, whose keys are unique. -/
def pairKeyLe (a b : String × Json) : Prop := strLe a.1 b.1 = true

instance : DecidableRel pairKeyLe := fun a b => by
  unfold pairKeyLe; infer_instance

mutual

/-- `utils.canonicalize_json`: floats are normalized, dicts are rebuilt with
canonicalized values and keys sorted ascending, lists are canonicalized
elementwise preserving order, everything else is returned unchanged. -/
def canonicalize_json : Json → Json
  | .float q => .float (normalize_float q FLOAT_COMPARISON_EPSILON)
  | .obj l => .obj (List.insertionSort pairKeyLe (canonicalizePairs l))
  | .arr l => .arr (canonicalizeList l)
  | .str s => .str s
  | .int n => .int n
  | .bool b => .bool b
termination_by structural j => j

/-- Elementwise canonicalization of a list of values. -/
def canonicalizeList : List Json → List Json
  | [] => []
  | x :: xs => canonicalize_json x :: canonicalizeList xs
termination_by structural l => l

/-- Valuewise canonicalization of the entries of an object. -/
def canonicalizePairs : List (String × Json) → List (String × Json)
  | [] => []
  | (k, v) :: xs => (k, canonicalize_json v) :: canonicalizePairs xs
termination_by structural l => l

end

example : stringify (.obj [("inputs", .obj [("a", .arr [.str "1", .int 0])])]) =
    "\x7b\"inputs\":\x7b\"a\":[\"1\",0]\x7d\x7d" := rfl

example : stringify (.arr [.bool true, .bool false, .str "a\"b"]) =
    "[true,false,\"a\\\"b\"]" := rfl

example : canonicalize_json (.obj [("b", .int 1), ("a", .arr [.int 2])]) =
    .obj [("a", .arr [.int 2]), ("b", .int 1)] := rfl

/-- The exceptions the workflow code can raise: `ValueError(msg)` and
`KeyError(key)` (a failed dict lookup `d[key]`). -/
inductive Err where
  | valueError (msg : String)
  | keyError (key : String)
deriving DecidableEq

/-- `workflow.REFERENCE_LENGTH = 2`. -/
def REFERENCE_LENGTH : Nat := 2

/-- `workflow.INPUTS_KEY = 'inputs'`. -/
def INPUTS_KEY : String := "inputs"

/-- `workflow.METADATA_KEYS = {'_meta', 'is_changed'}`. -/
def METADATA_KEYS : List String := ["_meta", "is_changed"]

/-- `workflow.IGNORED_INPUTS_KEYS = {'_displayed_text'}`. -/
def IGNORED_INPUTS_KEYS : List String := ["_displayed_text"]

/-- Python dict lookup `d[k]` on an association list (keys of an actual
Python dict are unique, so first-match lookup coincides with dict lookup). -/
def dictGet (l : List (String × Json)) (k : String) : Option Json :=
  match l.find? (fun p => p.1 == k) with
  | some p => some p.2
  | none => none

/-- Python dict assignment `d[k] = v`: replaces the value in place if the key
is present (keeping its position), otherwise appends the new entry at the
end. -/
def dictSet (l : List (String × Json)) (k : String) (v : Json) : List (String × Json) :=
  if l.any (fun p => p.1 == k) then
    l.map (fun p => if p.1 == k then (p.1, v) else p)
  else l ++ [(k, v)]

/-- The body of `strip_metadata`'s loop for one node: non-dict nodes pass
through; for a dict node, drop the metadata keys and `inputs` from the top
level, require `inputs` to be present (`KeyError` otherwise) and a dict
(`ValueError` otherwise), and re-add `inputs` filtered of the ignored input
keys. -/
def stripNode : Json → Except Err Json
  | .obj pairs =>
    let newNode : List (String × Json) :=
      pairs.filter (fun p => !(METADATA_KEYS.contains p.1) && p.1 != INPUTS_KEY)
    match dictGet pairs INPUTS_KEY with
    | none => .error (.keyError INPUTS_KEY)
    | some inputs =>
      match inputs with
      | .obj ipairs =>
        .ok (.obj (newNode ++
          [(INPUTS_KEY, .obj (ipairs.filter (fun q => !(IGNORED_INPUTS_KEYS.contains q.1))))]))
      | _ => .error (.valueError "Workflow inputs should be a dict.")
  | x => .ok x

/-- `workflow.strip_metadata`: apply `stripNode` to every node in iteration
order, stopping at the first raised error. -/
def strip_metadata : List (String × Json) → Except Err (List (String × Json))
  | [] => .ok []
  | (nodeId, nodeObj) :: rest => do
    let n ← stripNode nodeObj
    let r ← strip_metadata rest
    .ok ((nodeId, n) :: r)

/-- The `id_mapping` of `remap_node_ids`: each node ID mapped to its position
in the workflow's iteration order. -/
def idMapping (workflow : List (String × Json)) : List (String × Nat) :=
  (workflow.map Prod.fst).enum.map (fun p => (p.2, p.1))

/-- Lookup in the `id_mapping` dict (`KeyError` when absent is produced at the
call sites). -/
def idLookup (m : List (String × Nat)) (k : String) : Option Nat :=
  match m.find? (fun p => p.1 == k) with
  | some p => some p.2
  | none => none

/-- The reference check of `remap_node_ids`:
`isinstance(v, list) and len(v) == REFERENCE_LENGTH and isinstance(v[0], str)`.
The second element is not inspected. -/
def isRefShaped : Json → Bool
  | .arr [.str _, _] => true
  | _ => false

/-- Remapping of one input value: a reference-shaped value `[s, w]` becomes
`[id_mapping[s], w]` (`KeyError s` when `s` is not a key of the mapping);
everything else passes through. -/
def remapValue (m : List (String × Nat)) : Json → Except Err Json
  | .arr [.str s, w] =>
    match idLookup m s with
    | some i => .ok (.arr [.int i, w])
    | none => .error (.keyError s)
  | v => .ok v

/-- Remapping of the entries of an `inputs` dict, in order, stopping at the
first error. -/
def remapInputs (m : List (String × Nat)) : List (String × Json) → Except Err (List (String × Json))
  | [] => .ok []
  | (k, v) :: rest => do
    let v' ← remapValue m v
    let r ← remapInputs m rest
    .ok ((k, v') :: r)

/-- The body of `remap_node_ids`'s loop for one node: non-dict nodes pass
through; a dict node is shallow-copied, its `inputs` is required to be present
(`KeyError`) and a dict (`ValueError`), and the copy's `inputs` entry is
overwritten in place with the remapped inputs. -/
def remapNode (m : List (String × Nat)) : Json → Except Err Json
  | .obj pairs =>
    match dictGet pairs INPUTS_KEY with
    | none => .error (.keyError INPUTS_KEY)
    | some inputs =>
      match inputs with
      | .obj ipairs => do
        let ri ← remapInputs m ipairs
        .ok (.obj (dictSet pairs INPUTS_KEY (.obj ri)))
      | _ => .error (.valueError "Workflow inputs should be a dict.")
  | x => .ok x

/-- The node list built by `remap_node_ids`'s loop (the values of
`remapped_workflow` in iteration order). -/
def remapNodes (m : List (String × Nat)) : List (String × Json) → Except Err (List Json)
  | [] => .ok []
  | (_, nodeObj) :: rest => do
    let n ← remapNode m nodeObj
    let r ← remapNodes m rest
    .ok (n :: r)

/-- `workflow.remap_node_ids`: build the position-derived `id_mapping`, remap
every node's input references through it, and return the remapped node list
together with the mapping. -/
def remap_node_ids (workflow : List (String × Json)) :
    Except Err (List Json × List (String × Nat)) := do
  let m := idMapping workflow
  let nodes ← remapNodes m workflow
  .ok (nodes, m)

/-- The sort key of `sort_workflow`: `key=lambda pair: stringify(pair[1])` —
nodes are ordered by the serialization of their canonical content, never by
their ID. -/
def nodeContentLe (a b : String × Json) : Prop :=
  strLe (stringify a.2) (stringify b.2) = true

instance : DecidableRel nodeContentLe := fun a b => by
  unfold nodeContentLe; infer_instance

/-- `workflow.sort_workflow`: passthrough for non-dict input; otherwise strip
metadata, canonicalize every node, and re-sort the node mapping ascending by
the `stringify` of the canonical node content (Python's `sorted` is stable;
`insertionSort` is the same stable sort). -/
def sort_workflow : Json → Except Err Json
  | .obj l => do
    let stripped ← strip_metadata l
    let canonical := stripped.map (fun p => (p.1, canonicalize_json p.2))
    .ok (.obj (List.insertionSort nodeContentLe canonical))
  | x => .ok x

/-- Translation of `ignored_nodes` through `node_id_mappings`
(`KeyError` on a node ID absent from the main workflow). -/
def lookupIgnored (m : List (String × Nat)) : List String → Except Err (List Nat)
  | [] => .ok []
  | nodeId :: rest => do
    match idLookup m nodeId with
    | some i => do
      let r ← lookupIgnored m rest
      .ok (i :: r)
    | none => .error (.keyError nodeId)

/-- `clear_inputs` of `are_sorted_workflows_equal`: on a dict node, assign
`node[INPUTS_KEY] = {}`; otherwise do nothing. -/
def clearInputs : Json → Json
  | .obj pairs => .obj (dictSet pairs INPUTS_KEY (.obj []))
  | x => x

/-- The ignore loop of `are_sorted_workflows_equal`: for every remapped index,
clear the inputs of that node of the main list, and of the other list when the
index is in range there. -/
def applyIgnored (ignored : List Nat) (remapped other : List Json) : List Json × List Json :=
  match ignored with
  | [] => (remapped, other)
  | i :: rest =>
    let remapped' := remapped.modify clearInputs i
    let other' := if i < other.length then other.modify clearInputs i else other
    applyIgnored rest remapped' other'

/-- `workflow.are_sorted_workflows_equal`: raise `ValueError` unless both
workflows are dicts; remap both, translate the ignored node IDs through the
main workflow's mapping, clear the inputs of ignored positions in both node
lists, and compare the two lists via `compare_json`. -/
def are_sorted_workflows_equal (workflow otherWorkflow : Json) (ignoredNodes : List String) :
    Except Err Bool :=
  match workflow, otherWorkflow with
  | .obj l, .obj ol => do
    let (remapped, m) ← remap_node_ids l
    let remappedIgnored ← lookupIgnored m ignoredNodes
    let (remappedOther, _) ← remap_node_ids ol
    let (r, ro) := applyIgnored remappedIgnored remapped remappedOther
    .ok (compare_json (.arr r) (.arr ro) == 0)
  | .obj _, _ => .error (.valueError "Incorrect JSON objects passed to are_sorted_workflows_equal()!")
  | _, _ => .error (.valueError "Incorrect JSON objects passed to are_sorted_workflows_equal()!")

/-- The composition the spec's testable properties are stated about:
`are_sorted_workflows_equal(sort_workflow(g), sort_workflow(g2), ignored)`. -/
def sortAndCompare (g g2 : Json) (ignoredNodes : List String) : Except Err Bool := do
  let s ← sort_workflow g
  let s2 ← sort_workflow g2
  are_sorted_workflows_equal s s2 ignoredNodes

/-- Whether a JSON value is an Object (Python `isinstance(x, dict)`). -/
def Json.isObj : Json → Bool
  | .obj _ => true
  | _ => false

/-- The node IDs (keys) of a workflow object. -/
def workflowKeys (workflow : List (String × Json)) : List String :=
  workflow.map Prod.fst

/-- C2.  For `G = {"1": {inputs:{x:1}}, "2": {inputs:{y:5}}}` and `G2` equal to
`G` except that node `"2"`'s input `y` is `999`:
`are_sorted_workflows_equal(sort_workflow(G), sort_workflow(G2), ["2"])` is
`True`, and `are_sorted_workflows_equal(sort_workflow(G), sort_workflow(G2), [])`
is `False`. -/
theorem c2_ignore_list_scenario :
    sortAndCompare
        (.obj [("1", .obj [("inputs", .obj [("x", .int 1)])]),
               ("2", .obj [("inputs", .obj [("y", .int 5)])])])
        (.obj [("1", .obj [("inputs", .obj [("x", .int 1)])]),
               ("2", .obj [("inputs", .obj [("y", .int 999)])])])
        ["2"] = .ok true ∧
    sortAndCompare
        (.obj [("1", .obj [("inputs", .obj [("x", .int 1)])]),
               ("2", .obj [("inputs", .obj [("y", .int 5)])])])
        (.obj [("1", .obj [("inputs", .obj [("x", .int 1)])]),
               ("2", .obj [("inputs", .obj [("y", .int 999)])])])
        [] = .ok false :=
  ⟨rfl, rfl⟩

/-- C7.  `sort_workflow` is a passthrough on any non-Object argument, while
`are_sorted_workflows_equal` raises its `ValueError` whenever either workflow
argument is not an Object — malformed input is never reported as `False`. -/
theorem c7_non_object_handling :
    (∀ w : Json, w.isObj = false → sort_workflow w = .ok w) ∧
    (∀ a b : Json, ∀ ignoredNodes : List String,
      a.isObj = false ∨ b.isObj = false →
      are_sorted_workflows_equal a b ignoredNodes =
        .error (.valueError "Incorrect JSON objects passed to are_sorted_workflows_equal()!")) := by
  constructor
  · intro w h
    cases w <;> simp_all [Json.isObj, sort_workflow]
  · intro a b ignoredNodes h
    cases a <;> cases b <;> simp_all [Json.isObj, are_sorted_workflows_equal]

/-- Closed instance for C7: a non-dict passes through `sort_workflow`
unchanged, and a non-dict second argument makes `are_sorted_workflows_equal`
raise. -/
theorem c7_non_object_handling_witness :
    sort_workflow (.int 3) = .ok (.int 3) ∧
    are_sorted_workflows_equal (.obj []) (.str "x") [] =
      .error (.valueError "Incorrect JSON objects passed to are_sorted_workflows_equal()!") :=
  ⟨c7_non_object_handling.1 (.int 3) rfl,
   c7_non_object_handling.2 (.obj []) (.str "x") [] (Or.inr rfl)⟩

/-- Reduction of `Except` bind on a success, for unfolding the monadic
loops. -/
theorem except_bind_ok {α β ε : Type} (a : α) (f : α → Except ε β) :
    (Except.ok a : Except ε α) >>= f = f a := rfl

/-- Reduction of `Except` bind on an error. -/
theorem except_bind_error {α β ε : Type} (e : ε) (f : α → Except ε β) :
    (Except.error e : Except ε α) >>= f = .error e := rfl

/-- A value that is not reference-shaped passes through `remapValue`
unchanged, whatever it is. -/
theorem remapValue_of_not_ref (m : List (String × Nat)) (v : Json)
    (h : isRefShaped v = false) : remapValue m v = .ok v := by
  cases v with
  | arr l =>
    match l with
    | [] => rfl
    | [x] => cases x <;> rfl
    | x :: y :: z :: rest => cases x <;> rfl
    | [x, y] =>
      cases x with
      | str s => simp [isRefShaped] at h
      | int n => rfl
      | float q => rfl
      | bool b => rfl
      | arr l2 => rfl
      | obj l2 => rfl
  | str s => rfl
  | int n => rfl
  | float q => rfl
  | bool b => rfl
  | obj l => rfl

/-- C9.  `remap_node_ids` classifies an input value as a reference exactly
when it is a list of length 2 whose first element is a string; the second
element is never inspected.  On the one-node graph
`{"n": {inputs: {k: v}}}`: a non-reference-shaped `v` passes through
unchanged; a reference-shaped `v = [s, w]` with `s ≠ "n"` raises the
dangling-reference `KeyError s` whatever `w` is; and `v = ["n", w]` is
rewritten to the index reference `[0, w]` whatever `w` is. -/
theorem c9_reference_shape_classification (v : Json) :
    (isRefShaped v = false →
      remap_node_ids [("n", .obj [("inputs", .obj [("k", v)])])] =
        .ok ([.obj [("inputs", .obj [("k", v)])]], [("n", 0)])) ∧
    (∀ s w, v = .arr [.str s, w] → s ≠ "n" →
      remap_node_ids [("n", .obj [("inputs", .obj [("k", v)])])] =
        .error (.keyError s)) ∧
    (∀ w, v = .arr [.str "n", w] →
      remap_node_ids [("n", .obj [("inputs", .obj [("k", v)])])] =
        .ok ([.obj [("inputs", .obj [("k", .arr [.int 0, w])])]], [("n", 0)])) := by
  refine ⟨fun h => ?_, fun s w hv hs => ?_, fun w hv => ?_⟩
  · have hri : remapInputs [("n", 0)] [("k", v)] = .ok [("k", v)] := by
      simp only [remapInputs, remapValue_of_not_ref _ _ h]
      rfl
    simp only [remap_node_ids, remapNodes, remapNode, dictGet, idMapping, List.find?,
      INPUTS_KEY, hri, List.map, List.enum, beq_self_eq_true, except_bind_ok,
      except_bind_error, dictSet]
    rfl
  · subst hv
    have hbeq : (("n" : String) == s) = false := beq_eq_false_iff_ne.mpr (Ne.symm hs)
    have hlook : idLookup [("n", 0)] s = none := by
      simp [idLookup, List.find?, hbeq]
    have hri : remapInputs [("n", 0)] [("k", Json.arr [Json.str s, w])] =
        .error (.keyError s) := by
      simp only [remapInputs, remapValue, hlook]
      rfl
    simp only [remap_node_ids, remapNodes, remapNode, dictGet, idMapping, List.find?,
      INPUTS_KEY, hri, List.map, List.enum, beq_self_eq_true, except_bind_ok,
      except_bind_error]
  · subst hv
    rfl

/-- Closed instances for C9, with a non-integer second element in both: the
dangling case raises `KeyError` and the matching case is rewritten, even
though `["missing", "oops"]` and `["n", "oops"]` are not `[NodeId, Integer]`
references. -/
theorem c9_reference_shape_classification_witness :
    remap_node_ids [("n", .obj [("inputs", .obj [("k", .arr [.str "missing", .str "oops"])])])] =
      .error (.keyError "missing") ∧
    remap_node_ids [("n", .obj [("inputs", .obj [("k", .arr [.str "n", .str "oops"])])])] =
      .ok ([.obj [("inputs", .obj [("k", .arr [.int 0, .str "oops"])])]], [("n", 0)]) :=
  ⟨(c9_reference_shape_classification (.arr [.str "missing", .str "oops"])).2.1
      "missing" (.str "oops") rfl (by decide),
   (c9_reference_shape_classification (.arr [.str "n", .str "oops"])).2.2
      (.str "oops") rfl⟩

/-- `idLookup` into a mapping fails exactly when the key is absent from the
mapping's keys. -/
theorem idLookup_eq_none_iff (m : List (String × Nat)) (s : String) :
    idLookup m s = none ↔ s ∉ m.map Prod.fst := by
  unfold idLookup
  constructor
  · intro h hmem
    rcases List.mem_map.mp hmem with ⟨p, hp, hps⟩
    cases hfind : m.find? (fun q => q.1 == s) with
    | some q => rw [hfind] at h; cases h
    | none =>
      have := List.find?_eq_none.mp hfind p hp
      simp [hps] at this
  · intro h
    cases hfind : m.find? (fun q => q.1 == s) with
    | some q =>
      have hq := List.find?_some hfind
      have hqm := List.mem_of_find?_eq_some hfind
      exact absurd (List.mem_map.mpr ⟨q, hqm, by simpa using hq⟩) h
    | none => rfl

/-- The keys of `idMapping workflow` are exactly the workflow's keys. -/
theorem idMapping_map_fst (workflow : List (String × Json)) :
    (idMapping workflow).map Prod.fst = workflowKeys workflow := by
  simp [idMapping, workflowKeys, List.map_map, Function.comp]
  exact List.enum_map_snd _

/-- An ID absent from the workflow's keys fails to resolve through the
workflow's `idMapping`. -/
theorem idLookup_idMapping_eq_none (workflow : List (String × Json)) (s : String)
    (h : s ∉ workflowKeys workflow) : idLookup (idMapping workflow) s = none := by
  rw [idLookup_eq_none_iff, idMapping_map_fst]
  exact h

/-- A reference-shaped value is a two-element list headed by a string. -/
theorem isRefShaped_eq_true_iff (v : Json) :
    isRefShaped v = true ↔ ∃ s w, v = .arr [.str s, w] := by
  constructor
  · intro h
    unfold isRefShaped at h
    split at h
    · next s w => exact ⟨s, w, rfl⟩
    · cases h
  · rintro ⟨s, w, rfl⟩
    rfl

/-- `remapValue` fails only with the `KeyError` of a reference ID missing
from the mapping. -/
theorem remapValue_error (m : List (String × Nat)) (v : Json) (e : Err)
    (h : remapValue m v = .error e) :
    ∃ s, e = .keyError s ∧ idLookup m s = none := by
  cases hshape : isRefShaped v with
  | false => rw [remapValue_of_not_ref m v hshape] at h; cases h
  | true =>
    rcases (isRefShaped_eq_true_iff v).mp hshape with ⟨s, w, rfl⟩
    cases hl : idLookup m s with
    | some i => simp [remapValue, hl] at h
    | none =>
      refine ⟨s, ?_, hl⟩
      simp [remapValue, hl] at h
      exact h.symm

/-- `remapInputs` fails only with the `KeyError` of a reference ID missing
from the mapping. -/
theorem remapInputs_error (m : List (String × Nat)) (l : List (String × Json)) (e : Err)
    (h : remapInputs m l = .error e) :
    ∃ s, e = .keyError s ∧ idLookup m s = none := by
  induction l with
  | nil => cases h
  | cons p rest ih =>
    obtain ⟨k, v⟩ := p
    unfold remapInputs at h
    cases hv : remapValue m v with
    | error e1 =>
      rw [hv, except_bind_error] at h
      injection h with he
      subst he
      exact remapValue_error m v e1 hv
    | ok v1 =>
      rw [hv, except_bind_ok] at h
      cases hr : remapInputs m rest with
      | error e2 =>
        rw [hr, except_bind_error] at h
        injection h with he
        subst he
        exact ih hr
      | ok r => rw [hr, except_bind_ok] at h; cases h

/-- `remapInputs` must fail on an inputs dict containing a reference whose
target is missing from the mapping. -/
theorem remapInputs_error_of_dangling (m : List (String × Nat))
    (l : List (String × Json)) (k s : String) (w : Json)
    (hmem : (k, Json.arr [Json.str s, w]) ∈ l) (hlook : idLookup m s = none) :
    ∃ e, remapInputs m l = .error e := by
  induction l with
  | nil => cases hmem
  | cons p rest ih =>
    obtain ⟨k1, v1⟩ := p
    unfold remapInputs
    cases hv : remapValue m v1 with
    | error e1 => exact ⟨e1, by rw [except_bind_error]⟩
    | ok v2 =>
      rcases List.mem_cons.mp hmem with hhead | htail
      · injection hhead.symm with h1 h2
        subst h2
        simp [remapValue, hlook] at hv
      · rcases ih htail with ⟨e2, he2⟩
        exact ⟨e2, by rw [except_bind_ok, he2, except_bind_error]⟩

/-- On a dict node whose `inputs` entry is present and a dict, `remapNode`
fails only with the `KeyError` of a reference ID missing from the mapping. -/
theorem remapNode_error (m : List (String × Nat)) (pairs ipairs : List (String × Json)) (e : Err)
    (hip : dictGet pairs INPUTS_KEY = some (.obj ipairs))
    (h : remapNode m (.obj pairs) = .error e) :
    ∃ s, e = .keyError s ∧ idLookup m s = none := by
  simp only [remapNode] at h
  rw [hip] at h
  dsimp only at h
  cases hr : remapInputs m ipairs with
  | error e1 =>
    rw [hr, except_bind_error] at h
    injection h with he
    subst he
    exact remapInputs_error m ipairs e1 hr
  | ok r => rw [hr, except_bind_ok] at h; cases h

/-- `remapNode` must fail on a dict node whose inputs contain a reference
whose target is missing from the mapping. -/
theorem remapNode_error_of_dangling (m : List (String × Nat))
    (pairs ipairs : List (String × Json)) (k s : String) (w : Json)
    (hip : dictGet pairs INPUTS_KEY = some (.obj ipairs))
    (hmem : (k, Json.arr [Json.str s, w]) ∈ ipairs) (hlook : idLookup m s = none) :
    ∃ e, remapNode m (.obj pairs) = .error e := by
  rcases remapInputs_error_of_dangling m ipairs k s w hmem hlook with ⟨e, he⟩
  refine ⟨e, ?_⟩
  simp only [remapNode]
  rw [hip]
  dsimp only
  rw [he, except_bind_error]

/-- If all dict nodes of a workflow have a present dict `inputs`, `remapNodes`
fails only with the `KeyError` of a reference ID missing from the mapping. -/
theorem remapNodes_error (m : List (String × Nat)) (workflow : List (String × Json)) (e : Err)
    (hgood : ∀ p ∈ workflow, ∀ pairs, p.2 = Json.obj pairs →
      ∃ ipairs, dictGet pairs INPUTS_KEY = some (.obj ipairs))
    (h : remapNodes m workflow = .error e) :
    ∃ s, e = .keyError s ∧ idLookup m s = none := by
  induction workflow with
  | nil => cases h
  | cons p rest ih =>
    obtain ⟨nodeId, nodeObj⟩ := p
    unfold remapNodes at h
    cases hn : remapNode m nodeObj with
    | error e1 =>
      rw [hn, except_bind_error] at h
      injection h with he
      subst he
      cases nodeObj with
      | obj pairs =>
        rcases hgood (nodeId, .obj pairs) (List.mem_cons_self _ _) pairs rfl with ⟨ipairs, hip⟩
        exact remapNode_error m pairs ipairs e1 hip hn
      | str s2 => cases hn
      | int n => cases hn
      | float q => cases hn
      | bool b => cases hn
      | arr l => cases hn
    | ok n =>
      rw [hn, except_bind_ok] at h
      cases hr : remapNodes m rest with
      | error e2 =>
        rw [hr, except_bind_error] at h
        injection h with he
        subst he
        exact ih (fun q hq => hgood q (List.mem_cons_of_mem _ hq)) hr
      | ok r => rw [hr, except_bind_ok] at h; cases h

/-- `remapNodes` must fail on a workflow containing a dict node one of whose
inputs is a reference whose target is missing from the mapping. -/
theorem remapNodes_error_of_dangling (m : List (String × Nat))
    (workflow : List (String × Json)) (nodeId k s : String)
    (pairs ipairs : List (String × Json)) (w : Json)
    (hnode : (nodeId, Json.obj pairs) ∈ workflow)
    (hip : dictGet pairs INPUTS_KEY = some (.obj ipairs))
    (hmem : (k, Json.arr [Json.str s, w]) ∈ ipairs) (hlook : idLookup m s = none) :
    ∃ e, remapNodes m workflow = .error e := by
  induction workflow with
  | nil => cases hnode
  | cons p rest ih =>
    obtain ⟨nodeId1, nodeObj1⟩ := p
    unfold remapNodes
    cases hn : remapNode m nodeObj1 with
    | error e1 => exact ⟨e1, by rw [except_bind_error]⟩
    | ok n =>
      rcases List.mem_cons.mp hnode with hhead | htail
      · injection hhead.symm with h1 h2
        subst h2
        rcases remapNode_error_of_dangling m pairs ipairs k s w hip hmem hlook with ⟨e2, he2⟩
        rw [he2] at hn
        cases hn
      · rcases ih htail with ⟨e2, he2⟩
        exact ⟨e2, by rw [except_bind_ok, he2, except_bind_error]⟩

/-- C6.  On any workflow graph containing a node with an input value
`["missing-id", 0]` (or any reference `[s, w]`) whose target `s` is not a
node ID of the graph, `remap_node_ids` raises rather than returning a result;
and when every dict node of the graph carries a present dict `inputs` (the
schema invariant), the raised error is precisely the dangling-reference
`KeyError` of an ID absent from the graph. -/
theorem c6_dangling_reference (workflow : List (String × Json)) (nodeId k s : String)
    (pairs ipairs : List (String × Json)) (w : Json)
    (hnode : (nodeId, Json.obj pairs) ∈ workflow)
    (hip : dictGet pairs INPUTS_KEY = some (.obj ipairs))
    (hmem : (k, Json.arr [Json.str s, w]) ∈ ipairs)
    (hmiss : s ∉ workflowKeys workflow) :
    (∃ e, remap_node_ids workflow = .error e) ∧
    ((∀ p ∈ workflow, ∀ pairs2, p.2 = Json.obj pairs2 →
        ∃ ipairs2, dictGet pairs2 INPUTS_KEY = some (.obj ipairs2)) →
      ∃ s2, s2 ∉ workflowKeys workflow ∧
        remap_node_ids workflow = .error (.keyError s2)) := by
  have hlook : idLookup (idMapping workflow) s = none :=
    idLookup_idMapping_eq_none workflow s hmiss
  rcases remapNodes_error_of_dangling (idMapping workflow) workflow nodeId k s pairs ipairs w
    hnode hip hmem hlook with ⟨e, he⟩
  constructor
  · exact ⟨e, by simp only [remap_node_ids]; rw [he, except_bind_error]⟩
  · intro hgood
    rcases remapNodes_error (idMapping workflow) workflow e hgood he with ⟨s2, he2, hlook2⟩
    subst he2
    refine ⟨s2, ?_, ?_⟩
    · rw [← idMapping_map_fst workflow]
      exact (idLookup_eq_none_iff (idMapping workflow) s2).mp hlook2
    · simp only [remap_node_ids]
      rw [he, except_bind_error]

/-- Closed instance for C6: the graph
`{"a": {inputs: {k: ["missing-id", 0]}}}` makes `remap_node_ids` raise the
dangling-reference `KeyError`. -/
theorem c6_dangling_reference_witness :
    ∃ s2, s2 ∉ workflowKeys [("a", Json.obj [("inputs", Json.obj
        [("k", Json.arr [Json.str "missing-id", Json.int 0])])])] ∧
      remap_node_ids [("a", Json.obj [("inputs", Json.obj
        [("k", Json.arr [Json.str "missing-id", Json.int 0])])])] =
        .error (.keyError s2) := by
  refine (c6_dangling_reference _ "a" "k" "missing-id"
      [("inputs", Json.obj [("k", Json.arr [Json.str "missing-id", Json.int 0])])]
      [("k", Json.arr [Json.str "missing-id", Json.int 0])] (Json.int 0)
      (List.mem_singleton.mpr rfl) rfl (List.mem_singleton.mpr rfl) (by decide)).2 ?_
  intro p hp pairs2 hp2
  rcases List.mem_singleton.mp hp with rfl
  refine ⟨[("k", Json.arr [Json.str "missing-id", Json.int 0])], ?_⟩
  simp only at hp2
  injection hp2 with hl
  subst hl
  rfl

/-- `stripNode` fails only with `KeyError('inputs')` (inputs absent) or the
`ValueError` (inputs present but not a dict). -/
theorem stripNode_error (node : Json) (e : Err) (h : stripNode node = .error e) :
    e = .keyError INPUTS_KEY ∨ e = .valueError "Workflow inputs should be a dict." := by
  cases node with
  | obj pairs =>
    simp only [stripNode] at h
    cases hg : dictGet pairs INPUTS_KEY with
    | none =>
      rw [hg] at h
      dsimp only at h
      injection h with he
      exact Or.inl he.symm
    | some inputs =>
      rw [hg] at h
      dsimp only at h
      cases inputs with
      | obj ipairs => cases h
      | str s => injection h with he; exact Or.inr he.symm
      | int n => injection h with he; exact Or.inr he.symm
      | float q => injection h with he; exact Or.inr he.symm
      | bool b => injection h with he; exact Or.inr he.symm
      | arr l => injection h with he; exact Or.inr he.symm
  | str s => cases h
  | int n => cases h
  | float q => cases h
  | bool b => cases h
  | arr l => cases h

/-- `stripNode` must fail on a dict node whose `inputs` is absent or present
but not a dict. -/
theorem stripNode_error_of_bad_inputs (pairs : List (String × Json))
    (hbad : ∀ ipairs, dictGet pairs INPUTS_KEY ≠ some (.obj ipairs)) :
    ∃ e, stripNode (.obj pairs) = .error e := by
  simp only [stripNode]
  cases hg : dictGet pairs INPUTS_KEY with
  | none => exact ⟨.keyError INPUTS_KEY, rfl⟩
  | some inputs =>
    cases inputs with
    | obj ipairs => exact absurd hg (hbad ipairs)
    | str s => exact ⟨.valueError "Workflow inputs should be a dict.", rfl⟩
    | int n => exact ⟨.valueError "Workflow inputs should be a dict.", rfl⟩
    | float q => exact ⟨.valueError "Workflow inputs should be a dict.", rfl⟩
    | bool b => exact ⟨.valueError "Workflow inputs should be a dict.", rfl⟩
    | arr l => exact ⟨.valueError "Workflow inputs should be a dict.", rfl⟩

/-- C8.  `strip_metadata` raises on every workflow containing a dict node
whose `inputs` field is absent or is present but not an Object; the raised
error is the `ValueError` (SchemaError: present but not a dict) or the
`KeyError` (absent). -/
theorem c8_strip_metadata_bad_inputs (workflow : List (String × Json))
    (nodeId : String) (pairs : List (String × Json))
    (hnode : (nodeId, Json.obj pairs) ∈ workflow)
    (hbad : ∀ ipairs, dictGet pairs INPUTS_KEY ≠ some (.obj ipairs)) :
    ∃ e, strip_metadata workflow = .error e ∧
      (e = .keyError INPUTS_KEY ∨ e = .valueError "Workflow inputs should be a dict.") := by
  induction workflow with
  | nil => cases hnode
  | cons p rest ih =>
    obtain ⟨nodeId1, nodeObj1⟩ := p
    unfold strip_metadata
    cases hn : stripNode nodeObj1 with
    | error e1 =>
      exact ⟨e1, by rw [except_bind_error], stripNode_error nodeObj1 e1 hn⟩
    | ok n =>
      rcases List.mem_cons.mp hnode with hhead | htail
      · injection hhead.symm with h1 h2
        subst h2
        rcases stripNode_error_of_bad_inputs pairs hbad with ⟨e2, he2⟩
        rw [he2] at hn
        cases hn
      · rcases ih htail with ⟨e2, he2, hkind⟩
        refine ⟨e2, ?_, hkind⟩
        rw [except_bind_ok, he2, except_bind_error]

/-- Closed instances for C8: a node with non-dict `inputs` raises the
`ValueError`, and a node with no `inputs` key raises the `KeyError`. -/
theorem c8_strip_metadata_bad_inputs_witness :
    (∃ e, strip_metadata [("a", Json.obj [("inputs", Json.int 5)])] = .error e ∧
      (e = .keyError INPUTS_KEY ∨ e = .valueError "Workflow inputs should be a dict.")) ∧
    (∃ e, strip_metadata [("b", Json.obj [("class_type", Json.str "T")])] = .error e ∧
      (e = .keyError INPUTS_KEY ∨ e = .valueError "Workflow inputs should be a dict.")) := by
  constructor
  · refine c8_strip_metadata_bad_inputs _ "a" [("inputs", Json.int 5)]
      (List.mem_singleton.mpr rfl) ?_
    intro ipairs h
    injection h with h1
    cases h1
  · refine c8_strip_metadata_bad_inputs _ "b" [("class_type", Json.str "T")]
      (List.mem_singleton.mpr rfl) ?_
    intro ipairs h
    cases h

/-- Modelled from the spec: renaming of a reference's target NodeId.  A
reference `[s, w]` becomes `[σ s, w]`; every other value is unchanged.  This
is the claim-side notion of "references updated consistently" used to state
ID-independence; it is not part of the Python code. -/
def renameRef (sigma : String → String) : Json → Json
  | .arr [.str s, w] => .arr [.str (sigma s), w]
  | v => v

/-- Modelled from the spec: renaming applied inside an `inputs` dict value. -/
def renameInputsVal (sigma : String → String) : Json → Json
  | .obj ipairs => .obj (ipairs.map (fun q => (q.1, renameRef sigma q.2)))
  | v => v

/-- Modelled from the spec: renaming applied to one node — every `inputs`
entry has its reference targets renamed. -/
def renameNode (sigma : String → String) : Json → Json
  | .obj pairs =>
    .obj (pairs.map (fun p =>
      if p.1 == INPUTS_KEY then (p.1, renameInputsVal sigma p.2) else p))
  | v => v

/-- Modelled from the spec: the graph `G'` obtained from `G` by renaming every
NodeId via `sigma` and updating every Reference's first element
consistently. -/
def renameWorkflow (sigma : String → String) (workflow : List (String × Json)) :
    List (String × Json) :=
  workflow.map (fun p => (sigma p.1, renameNode sigma p.2))

/-- The concrete bijection used in the C1 counterexample: swap the NodeIds
`"1"` and `"2"`, fix everything else. -/
def c1swap (s : String) : String :=
  if s = "1" then "2" else if s = "2" then "1" else s

/-- The C1 counterexample graph: two distinguishable source nodes (`"1"`,
`"2"`) and two sink nodes (`"3"`, `"4"`) referencing them. -/
def c1Graph : List (String × Json) :=
  [("1", .obj [("inputs", .obj [("v", .int 1)])]),
   ("2", .obj [("inputs", .obj [("v", .int 2)])]),
   ("3", .obj [("inputs", .obj [("k", .arr [.str "1", .int 0])])]),
   ("4", .obj [("inputs", .obj [("k", .arr [.str "2", .int 0])])])]

/-- `c1swap` is an involution, hence a bijection on NodeIds. -/
theorem c1swap_involutive : Function.Involutive c1swap := by
  intro s
  unfold c1swap
  split_ifs with h1 h2 h3 h4 h5 h6 <;> simp_all

/-- C1 counterexample.  The claim "for every graph `G` and every bijective
renaming `G'` of it, `are_sorted_workflows_equal(sort_workflow(G),
sort_workflow(G'), [])` returns true" is false: for the concrete `c1Graph`
and the bijection swapping NodeIds `"1"` and `"2"`, the pipeline returns
`ok false`.  (Renaming swaps which source node sorts first, because the sink
nodes' canonical contents embed the raw reference strings, so the two graphs
remap their references to different positional indices.) -/
theorem c1_id_independence_counterexample :
    Function.Bijective c1swap ∧
    renameWorkflow c1swap c1Graph =
      [("2", .obj [("inputs", .obj [("v", .int 1)])]),
       ("1", .obj [("inputs", .obj [("v", .int 2)])]),
       ("3", .obj [("inputs", .obj [("k", .arr [.str "2", .int 0])])]),
       ("4", .obj [("inputs", .obj [("k", .arr [.str "1", .int 0])])])] ∧
    sortAndCompare (.obj c1Graph) (.obj (renameWorkflow c1swap c1Graph)) [] = .ok false :=
  ⟨c1swap_involutive.bijective, rfl, rfl⟩

/-- A well-shaped `inputs` value: a dict none of whose entries is
reference-shaped. -/
def inputsValOk (v : Json) : Bool :=
  match v with
  | .obj ipairs => ipairs.all (fun q => !isRefShaped q.2)
  | _ => false

/-- An `inputs`-keyed entry either is not `inputs`-keyed, or carries no
reference-shaped value inside a dict value. -/
def inputsEntryNoRefs (p : String × Json) : Bool :=
  p.1 != INPUTS_KEY ||
    (match p.2 with
     | .obj ipairs => ipairs.all (fun q => !isRefShaped q.2)
     | _ => true)

/-- No `inputs` entry of the node carries a reference-shaped value. -/
def nodeNoRefs : Json → Bool
  | .obj pairs => pairs.all inputsEntryNoRefs
  | _ => true

/-- No node of the workflow carries a reference-shaped input value. -/
def workflowNoRefs (workflow : List (String × Json)) : Bool :=
  workflow.all (fun p => nodeNoRefs p.2)

/-- Every dict node carries a present, dict-valued `inputs` field (the
schema invariant of the data model). -/
def nodeSchemaOk : Json → Bool
  | .obj pairs =>
    match dictGet pairs INPUTS_KEY with
    | some (.obj _) => true
    | _ => false
  | _ => true

/-- Schema invariant over a whole workflow. -/
def workflowSchemaOk (workflow : List (String × Json)) : Bool :=
  workflow.all (fun p => nodeSchemaOk p.2)

/-- A node in "good" form for remapping: some `inputs` entry exists, and every
`inputs`-keyed entry holds a dict free of reference-shaped values. -/
def nodeGood : Json → Bool
  | .obj pairs =>
    pairs.any (fun p => p.1 == INPUTS_KEY) &&
      pairs.all (fun p => p.1 != INPUTS_KEY || inputsValOk p.2)
  | _ => true

/-- What `remapNode` produces on a reference-free good node (independent of
the ID mapping). -/
def remapNoRefNode : Json → Json
  | .obj pairs =>
    match dictGet pairs INPUTS_KEY with
    | some (.obj ipairs) => .obj (dictSet pairs INPUTS_KEY (.obj ipairs))
    | _ => .obj pairs
  | x => x

/-- `charsLt` is irreflexive. -/
theorem charsLt_irrefl (cs : List Char) : charsLt cs cs = false := by
  induction cs with
  | nil => rfl
  | cons c rest ih => simp [charsLt, ih]

/-- `strLt` is irreflexive, so `compare_json` of equal serializations is 0. -/
theorem strLt_irrefl (s : String) : strLt s s = false := charsLt_irrefl s.data

/-- `compare_json` of a value with itself is 0. -/
theorem compare_json_self (v : Json) : compare_json v v = 0 := by
  simp [compare_json, strLt_irrefl]

/-- A reference-shaped value keeps its shape under `renameRef`. -/
theorem renameRef_of_not_ref (sigma : String → String) (v : Json)
    (h : isRefShaped v = false) : renameRef sigma v = v := by
  cases v with
  | arr l =>
    match l with
    | [] => rfl
    | [x] => cases x <;> rfl
    | x :: y :: z :: rest => cases x <;> rfl
    | [x, y] =>
      cases x with
      | str s => simp [isRefShaped] at h
      | int n => rfl
      | float q => rfl
      | bool b => rfl
      | arr l2 => rfl
      | obj l2 => rfl
  | str s => rfl
  | int n => rfl
  | float q => rfl
  | bool b => rfl
  | obj l => rfl

/-- Renaming reference targets is the identity on a node free of
reference-shaped input values. -/
theorem renameNode_of_noRefs (sigma : String → String) (node : Json)
    (h : nodeNoRefs node = true) : renameNode sigma node = node := by
  cases node with
  | obj pairs =>
    have hall : ∀ p ∈ pairs, inputsEntryNoRefs p = true := by
      simpa [nodeNoRefs, List.all_eq_true] using h
    simp only [renameNode]
    congr 1
    calc pairs.map (fun p => if p.1 == INPUTS_KEY then (p.1, renameInputsVal sigma p.2) else p)
        = pairs.map id := by
          apply List.map_congr_left
          intro p hp
          split
          · next hk =>
            obtain ⟨k, v⟩ := p
            have hk2 : (k == INPUTS_KEY) = true := hk
            have hent := hall (k, v) hp
            rw [inputsEntryNoRefs] at hent
            have hne : ((k, v).1 != INPUTS_KEY) = false := by
              simp only [bne, hk2, Bool.not_true]
            rw [hne, Bool.false_or] at hent
            show (k, renameInputsVal sigma v) = (k, v)
            cases v with
            | obj ipairs =>
              have hvals : ∀ q ∈ ipairs, isRefShaped q.2 = false := by
                intro q hq
                have := (List.all_eq_true.mp hent) q hq
                simpa using this
              simp only [renameInputsVal]
              congr 2
              calc ipairs.map (fun q => (q.1, renameRef sigma q.2))
                  = ipairs.map id := by
                    apply List.map_congr_left
                    intro q hq
                    rw [renameRef_of_not_ref sigma q.2 (hvals q hq)]
                    rfl
                _ = ipairs := List.map_id _
            | str s => rfl
            | int n => rfl
            | float q => rfl
            | bool b => rfl
            | arr l => rfl
          · rfl
      _ = pairs := List.map_id _
  | str s => rfl
  | int n => rfl
  | float q => rfl
  | bool b => rfl
  | arr l => rfl

/-- On a reference-free workflow, renaming is just a key rename: every node
value is unchanged. -/
theorem renameWorkflow_of_noRefs (sigma : String → String)
    (workflow : List (String × Json)) (h : workflowNoRefs workflow = true) :
    renameWorkflow sigma workflow = workflow.map (fun p => (sigma p.1, p.2)) := by
  have hall : ∀ p ∈ workflow, nodeNoRefs p.2 = true := by
    simpa [workflowNoRefs, List.all_eq_true] using h
  apply List.map_congr_left
  intro p hp
  rw [renameNode_of_noRefs sigma p.2 (hall p hp)]

/-- A successful dict lookup returns the value of an entry of the dict. -/
theorem dictGet_mem (pairs : List (String × Json)) (k : String) (v : Json)
    (h : dictGet pairs k = some v) : (k, v) ∈ pairs := by
  unfold dictGet at h
  cases hf : pairs.find? (fun p => p.1 == k) with
  | none => rw [hf] at h; cases h
  | some p =>
    rw [hf] at h
    injection h with hv
    have hk : p.1 = k := by simpa using List.find?_some hf
    have hp : p ∈ pairs := List.mem_of_find?_eq_some hf
    have : (k, v) = p := by
      obtain ⟨p1, p2⟩ := p
      simp only at hk hv
      rw [hk, hv]
    rwa [this]

/-- If some entry has key `k`, `dictGet` succeeds. -/
theorem dictGet_isSome_of_any (pairs : List (String × Json)) (k : String)
    (h : pairs.any (fun p => p.1 == k) = true) : ∃ v, dictGet pairs k = some v := by
  unfold dictGet
  cases hf : pairs.find? (fun p => p.1 == k) with
  | none =>
    rcases List.any_eq_true.mp h with ⟨p, hp, hpk⟩
    have := List.find?_eq_none.mp hf p hp
    exact absurd hpk this
  | some p => exact ⟨p.2, rfl⟩

/-- `canonicalizePairs` is the valuewise map of `canonicalize_json`. -/
theorem canonicalizePairs_eq_map (l : List (String × Json)) :
    canonicalizePairs l = l.map (fun p => (p.1, canonicalize_json p.2)) := by
  induction l with
  | nil => rfl
  | cons p rest ih =>
    obtain ⟨k, v⟩ := p
    simp only [canonicalizePairs, ih, List.map]

/-- `canonicalizeList` is the elementwise map of `canonicalize_json`. -/
theorem canonicalizeList_eq_map (l : List Json) :
    canonicalizeList l = l.map canonicalize_json := by
  induction l with
  | nil => rfl
  | cons x rest ih => simp only [canonicalizeList, ih, List.map]

/-- Canonicalization preserves being reference-shaped. -/
theorem isRefShaped_canonicalize (v : Json) :
    isRefShaped (canonicalize_json v) = isRefShaped v := by
  cases v with
  | arr l =>
    match l with
    | [] => rfl
    | [x] => cases x <;> rfl
    | [x, y] => cases x <;> rfl
    | x :: y :: z :: rest =>
      simp only [canonicalize_json, canonicalizeList]
      cases x <;> rfl
  | str s => rfl
  | int n => rfl
  | float q => rfl
  | bool b => rfl
  | obj l => rfl

/-- Canonicalization preserves well-shaped `inputs` values. -/
theorem inputsValOk_canonicalize (v : Json) (h : inputsValOk v = true) :
    inputsValOk (canonicalize_json v) = true := by
  cases v with
  | obj ipairs =>
    simp only [canonicalize_json, inputsValOk, List.all_eq_true] at h ⊢
    intro q hq
    have hq2 : q ∈ canonicalizePairs ipairs :=
      (List.perm_insertionSort pairKeyLe (canonicalizePairs ipairs)).subset hq
    rw [canonicalizePairs_eq_map] at hq2
    rcases List.mem_map.mp hq2 with ⟨p, hp, hpq⟩
    subst hpq
    simp only [isRefShaped_canonicalize]
    exact h p hp
  | str s => simp [inputsValOk] at h
  | int n => simp [inputsValOk] at h
  | float q => simp [inputsValOk] at h
  | bool b => simp [inputsValOk] at h
  | arr l => simp [inputsValOk] at h

/-- Canonicalization preserves good nodes. -/
theorem nodeGood_canonicalize (v : Json) (h : nodeGood v = true) :
    nodeGood (canonicalize_json v) = true := by
  cases v with
  | obj pairs =>
    simp only [canonicalize_json, nodeGood, Bool.and_eq_true, List.any_eq_true,
      List.all_eq_true] at h ⊢
    obtain ⟨⟨pw, hpw, hpwk⟩, hall⟩ := h
    constructor
    · refine ⟨(pw.1, canonicalize_json pw.2), ?_, hpwk⟩
      apply (List.perm_insertionSort pairKeyLe (canonicalizePairs pairs)).mem_iff.mpr
      rw [canonicalizePairs_eq_map]
      exact List.mem_map.mpr ⟨pw, hpw, rfl⟩
    · intro q hq
      have hq2 : q ∈ canonicalizePairs pairs :=
        (List.perm_insertionSort pairKeyLe (canonicalizePairs pairs)).subset hq
      rw [canonicalizePairs_eq_map] at hq2
      rcases List.mem_map.mp hq2 with ⟨p, hp, hpq⟩
      subst hpq
      cases hk : (p.1 != INPUTS_KEY) with
      | true => simp [hk]
      | false =>
        have hv : inputsValOk p.2 = true := by
          have h2 := hall p hp
          rw [hk, Bool.false_or] at h2
          exact h2
        simp [hk, inputsValOk_canonicalize p.2 hv]
  | str s => rfl
  | int n => rfl
  | float q => rfl
  | bool b => rfl
  | arr l => rfl

/-- `remapInputs` is the identity (wrapped in `ok`) on a reference-free
inputs dict, whatever the mapping. -/
theorem remapInputs_of_noRefs (m : List (String × Nat)) (ipairs : List (String × Json))
    (h : ∀ q ∈ ipairs, isRefShaped q.2 = false) : remapInputs m ipairs = .ok ipairs := by
  induction ipairs with
  | nil => rfl
  | cons q rest ih =>
    obtain ⟨k, v⟩ := q
    have hv := h (k, v) (List.mem_cons_self _ _)
    simp only [remapInputs, remapValue_of_not_ref m v hv, except_bind_ok,
      ih (fun q hq => h q (List.mem_cons_of_mem _ hq)), except_bind_ok]

/-- On a good node, `remapNode` succeeds with a result independent of the ID
mapping. -/
theorem remapNode_of_good (m : List (String × Nat)) (node : Json)
    (h : nodeGood node = true) : remapNode m node = .ok (remapNoRefNode node) := by
  cases node with
  | obj pairs =>
    simp only [nodeGood, Bool.and_eq_true] at h
    obtain ⟨hany, hall⟩ := h
    rcases dictGet_isSome_of_any pairs INPUTS_KEY hany with ⟨v0, hg⟩
    have hmem0 := dictGet_mem pairs INPUTS_KEY v0 hg
    have hok : inputsValOk v0 = true := by
      have h2 := (List.all_eq_true.mp hall) (INPUTS_KEY, v0) hmem0
      simp only [bne_self_eq_false, Bool.false_or] at h2
      exact h2
    cases v0 with
    | obj ipairs =>
      have hnr : ∀ q ∈ ipairs, isRefShaped q.2 = false := by
        intro q hq
        have := (List.all_eq_true.mp hok) q hq
        simpa using this
      simp only [remapNode, remapNoRefNode]
      rw [hg]
      dsimp only
      rw [remapInputs_of_noRefs m ipairs hnr, except_bind_ok]
    | str s => simp [inputsValOk] at hok
    | int n => simp [inputsValOk] at hok
    | float q => simp [inputsValOk] at hok
    | bool b => simp [inputsValOk] at hok
    | arr l => simp [inputsValOk] at hok
  | str s => rfl
  | int n => rfl
  | float q => rfl
  | bool b => rfl
  | arr l => rfl

/-- On a workflow of good nodes, the remap loop succeeds and produces the
mapping-independent node list. -/
theorem remapNodes_of_good (m : List (String × Nat)) (l : List (String × Json))
    (h : ∀ p ∈ l, nodeGood p.2 = true) :
    remapNodes m l = .ok (l.map (fun p => remapNoRefNode p.2)) := by
  induction l with
  | nil => rfl
  | cons p rest ih =>
    obtain ⟨k, v⟩ := p
    have hv := h (k, v) (List.mem_cons_self _ _)
    simp only [remapNodes, remapNode_of_good m v hv, except_bind_ok,
      ih (fun q hq => h q (List.mem_cons_of_mem _ hq)), except_bind_ok, List.map]

/-- On a schema-valid reference-free node, `stripNode` succeeds and yields a
good node. -/
theorem stripNode_good (v : Json) (h1 : nodeSchemaOk v = true) (h2 : nodeNoRefs v = true) :
    ∃ n, stripNode v = .ok n ∧ nodeGood n = true := by
  cases v with
  | obj pairs =>
    simp only [nodeSchemaOk] at h1
    cases hg : dictGet pairs INPUTS_KEY with
    | none => rw [hg] at h1; cases h1
    | some v0 =>
      rw [hg] at h1
      cases v0 with
      | obj ipairs =>
        refine ⟨.obj ((pairs.filter
            (fun p => !(METADATA_KEYS.contains p.1) && p.1 != INPUTS_KEY)) ++
            [(INPUTS_KEY, .obj (ipairs.filter
              (fun q => !(IGNORED_INPUTS_KEYS.contains q.1))))]), ?_, ?_⟩
        · simp only [stripNode]
          rw [hg]
        · have hmem0 := dictGet_mem pairs INPUTS_KEY (.obj ipairs) hg
          have hnr : ∀ q ∈ ipairs, isRefShaped q.2 = false := by
            intro q hq
            have hent := (List.all_eq_true.mp (by simpa [nodeNoRefs] using h2))
              (INPUTS_KEY, .obj ipairs) hmem0
            rw [inputsEntryNoRefs] at hent
            simp only [bne_self_eq_false, Bool.false_or] at hent
            have := (List.all_eq_true.mp hent) q hq
            simpa using this
          simp only [nodeGood, Bool.and_eq_true, List.any_eq_true, List.all_eq_true]
          constructor
          · exact ⟨(INPUTS_KEY, .obj (ipairs.filter
              (fun q => !(IGNORED_INPUTS_KEYS.contains q.1)))),
              List.mem_append_right _ (List.mem_singleton.mpr rfl), by simp⟩
          · intro p hp
            rcases List.mem_append.mp hp with hleft | hright
            · have hf := List.of_mem_filter hleft
              simp only [Bool.and_eq_true] at hf
              simp [hf.2]
            · rcases List.mem_singleton.mp hright with rfl
              simp only [bne_self_eq_false, Bool.false_or, inputsValOk, List.all_eq_true]
              intro q hq
              have := hnr q (List.mem_of_mem_filter hq)
              simpa using this
      | str s => cases h1
      | int n => cases h1
      | float q => cases h1
      | bool b => cases h1
      | arr l => cases h1
  | str s => exact ⟨.str s, rfl, rfl⟩
  | int n => exact ⟨.int n, rfl, rfl⟩
  | float q => exact ⟨.float q, rfl, rfl⟩
  | bool b => exact ⟨.bool b, rfl, rfl⟩
  | arr l => exact ⟨.arr l, rfl, rfl⟩

/-- On a schema-valid reference-free workflow, `strip_metadata` succeeds and
every resulting node is good. -/
theorem strip_metadata_ok_of_schema (w : List (String × Json))
    (hs : workflowSchemaOk w = true) (hn : workflowNoRefs w = true) :
    ∃ stripped, strip_metadata w = .ok stripped ∧
      (∀ p ∈ stripped, nodeGood p.2 = true) ∧
      stripped.map Prod.fst = w.map Prod.fst := by
  induction w with
  | nil => exact ⟨[], rfl, by simp, rfl⟩
  | cons p rest ih =>
    obtain ⟨k, v⟩ := p
    simp only [workflowSchemaOk, List.all_cons, Bool.and_eq_true] at hs
    simp only [workflowNoRefs, List.all_cons, Bool.and_eq_true] at hn
    rcases stripNode_good v hs.1 hn.1 with ⟨n, hsn, hgn⟩
    rcases ih hs.2 hn.2 with ⟨strippedRest, hsr, hgr, hkr⟩
    refine ⟨(k, n) :: strippedRest, ?_, ?_, ?_⟩
    · simp only [strip_metadata, hsn, except_bind_ok, hsr, except_bind_ok]
    · intro q hq
      rcases List.mem_cons.mp hq with rfl | htail
      · exact hgn
      · exact hgr q htail
    · simp only [List.map, hkr]

/-- `strip_metadata` commutes with renaming the keys of the workflow (it
never reads a node's key). -/
theorem strip_metadata_keymap (sigma : String → String) (w : List (String × Json)) :
    strip_metadata (w.map (fun p => (sigma p.1, p.2))) =
      Except.map (List.map (fun p => (sigma p.1, p.2))) (strip_metadata w) := by
  induction w with
  | nil => rfl
  | cons p rest ih =>
    obtain ⟨k, v⟩ := p
    simp only [List.map]
    unfold strip_metadata
    cases hn : stripNode v with
    | error e => rfl
    | ok n =>
      simp only [except_bind_ok]
      rw [ih]
      cases hr : strip_metadata rest with
      | error e => rfl
      | ok r => rfl

/-- Sorting by the serialization of the node content commutes with renaming
the keys (the sort key reads only the content). -/
theorem insertionSort_stringify_map_keys (sigma : String → String)
    (l : List (String × Json)) :
    (List.insertionSort nodeContentLe l).map (fun p => (sigma p.1, p.2)) =
      List.insertionSort nodeContentLe (l.map (fun p => (sigma p.1, p.2))) := by
  apply List.map_insertionSort
  intro a _ b _
  exact Iff.rfl

/-- C1 (amended).  ID-independence holds for reference-free graphs: for every
schema-valid workflow with unique node IDs none of whose input values is
reference-shaped, and every injective renaming of its NodeIds,
`are_sorted_workflows_equal(sort_workflow(G), sort_workflow(G'), [])` returns
true.  (For graphs with cross-references the property fails; see the
counterexample.)  The injectivity and key-uniqueness hypotheses keep the
association-list model faithful to a Python dict — a non-injective renaming
would collapse keys in Python — though the proof itself never consults the
keys. -/
theorem c1_id_independence_no_refs (w : List (String × Json)) (sigma : String → String)
    (hinj : Function.Injective sigma) (hnd : (workflowKeys w).Nodup)
    (hschema : workflowSchemaOk w = true) (hnorefs : workflowNoRefs w = true) :
    sortAndCompare (.obj w) (.obj (renameWorkflow sigma w)) [] = .ok true := by
  obtain ⟨stripped, hstrip, hgood, hkeys⟩ := strip_metadata_ok_of_schema w hschema hnorefs
  have hgoodc : ∀ p ∈ stripped.map (fun p => (p.1, canonicalize_json p.2)),
      nodeGood p.2 = true := by
    intro p hp
    rcases List.mem_map.mp hp with ⟨q, hq, rfl⟩
    exact nodeGood_canonicalize q.2 (hgood q hq)
  have hgoodA : ∀ p ∈ List.insertionSort nodeContentLe
      (stripped.map (fun p => (p.1, canonicalize_json p.2))), nodeGood p.2 = true :=
    fun p hp => hgoodc p ((List.perm_insertionSort _ _).subset hp)
  have h1 : sort_workflow (.obj w) = .ok (.obj (List.insertionSort nodeContentLe
      (stripped.map (fun p => (p.1, canonicalize_json p.2))))) := by
    simp only [sort_workflow]
    rw [hstrip, except_bind_ok]
  have h2 : sort_workflow (.obj (renameWorkflow sigma w)) =
      .ok (.obj ((List.insertionSort nodeContentLe
        (stripped.map (fun p => (p.1, canonicalize_json p.2)))).map
          (fun p => (sigma p.1, p.2)))) := by
    calc sort_workflow (.obj (renameWorkflow sigma w))
        = .ok (.obj (List.insertionSort nodeContentLe
            ((stripped.map (fun p => (sigma p.1, p.2))).map
              (fun p => (p.1, canonicalize_json p.2))))) := by
          rw [renameWorkflow_of_noRefs sigma w hnorefs]
          simp only [sort_workflow]
          rw [strip_metadata_keymap, hstrip]
          rfl
      _ = .ok (.obj (List.insertionSort nodeContentLe
            ((stripped.map (fun p => (p.1, canonicalize_json p.2))).map
              (fun p => (sigma p.1, p.2))))) := by
          rw [List.map_map, List.map_map]
          rfl
      _ = .ok (.obj ((List.insertionSort nodeContentLe
            (stripped.map (fun p => (p.1, canonicalize_json p.2)))).map
              (fun p => (sigma p.1, p.2)))) := by
          rw [insertionSort_stringify_map_keys]
  have hgoodB : ∀ p ∈ (List.insertionSort nodeContentLe
      (stripped.map (fun p => (p.1, canonicalize_json p.2)))).map
        (fun p => (sigma p.1, p.2)), nodeGood p.2 = true := by
    intro p hp
    rcases List.mem_map.mp hp with ⟨q, hq, rfl⟩
    exact hgoodA q hq
  have hremA : remap_node_ids (List.insertionSort nodeContentLe
      (stripped.map (fun p => (p.1, canonicalize_json p.2)))) =
      .ok ((List.insertionSort nodeContentLe
        (stripped.map (fun p => (p.1, canonicalize_json p.2)))).map
          (fun p => remapNoRefNode p.2),
        idMapping (List.insertionSort nodeContentLe
          (stripped.map (fun p => (p.1, canonicalize_json p.2))))) := by
    simp only [remap_node_ids]
    rw [remapNodes_of_good _ _ hgoodA, except_bind_ok]
  have hremB : remap_node_ids ((List.insertionSort nodeContentLe
      (stripped.map (fun p => (p.1, canonicalize_json p.2)))).map
        (fun p => (sigma p.1, p.2))) =
      .ok ((List.insertionSort nodeContentLe
        (stripped.map (fun p => (p.1, canonicalize_json p.2)))).map
          (fun p => remapNoRefNode p.2),
        idMapping ((List.insertionSort nodeContentLe
          (stripped.map (fun p => (p.1, canonicalize_json p.2)))).map
            (fun p => (sigma p.1, p.2)))) := by
    simp only [remap_node_ids]
    rw [remapNodes_of_good _ _ hgoodB, except_bind_ok, List.map_map]
    rfl
  have h3 : are_sorted_workflows_equal
      (.obj (List.insertionSort nodeContentLe
        (stripped.map (fun p => (p.1, canonicalize_json p.2)))))
      (.obj ((List.insertionSort nodeContentLe
        (stripped.map (fun p => (p.1, canonicalize_json p.2)))).map
          (fun p => (sigma p.1, p.2)))) [] = .ok true := by
    simp only [are_sorted_workflows_equal]
    rw [hremA, except_bind_ok, hremB]
    simp only [lookupIgnored, except_bind_ok, applyIgnored, compare_json_self]
    rfl
  simp only [sortAndCompare]
  rw [h1, except_bind_ok, h2, except_bind_ok]
  exact h3

/-- Closed instance for C1 (amended): the two-node reference-free graph of
the spec's ignore-list scenario, renamed by the bijection swapping `"1"` and
`"2"`, compares equal. -/
theorem c1_id_independence_no_refs_witness :
    sortAndCompare
      (.obj [("1", .obj [("inputs", .obj [("x", .int 1)])]),
             ("2", .obj [("inputs", .obj [("y", .int 5)])])])
      (.obj (renameWorkflow c1swap
        [("1", .obj [("inputs", .obj [("x", .int 1)])]),
         ("2", .obj [("inputs", .obj [("y", .int 5)])])])) [] = .ok true :=
  c1_id_independence_no_refs
    [("1", .obj [("inputs", .obj [("x", .int 1)])]),
     ("2", .obj [("inputs", .obj [("y", .int 5)])])]
    c1swap c1swap_involutive.injective (by decide) rfl rfl

/-- `find?` over `range n` returns the least index satisfying the
predicate. -/
theorem find?_range_eq_some_of_least (f : Nat → Bool) (p : Nat) :
    ∀ n, p < n → f p = true → (∀ q, q < p → f q = false) →
      (List.range n).find? f = some p := by
  intro n
  induction n with
  | zero => intro h; omega
  | succ n ih =>
    intro hp hf hleast
    rw [List.range_succ, List.find?_append]
    by_cases hpn : p < n
    · rw [ih hpn hf hleast]
      rfl
    · have hpn2 : p = n := by omega
      subst hpn2
      have hnone : (List.range p).find? f = none :=
        List.find?_eq_none.mpr (fun x hx => by
          simp [hleast x (List.mem_range.mp hx)])
      rw [hnone, List.find?_cons_of_pos _ hf]
      rfl

/-- `find?` over `range n` fails when no index satisfies the predicate. -/
theorem find?_range_eq_none (f : Nat → Bool) (n : Nat)
    (h : ∀ q, q < n → f q = false) : (List.range n).find? f = none :=
  List.find?_eq_none.mpr (fun x hx => by simp [h x (List.mem_range.mp hx)])

/-- The loop of `normalize_float` returns `round(x, p)` for the least
succeeding precision `p < 16`. -/
theorem normalize_float_eq_pyRound (x epsilon : Rat) (p : Nat) (hp : p < 16)
    (hf : isclose x (pyRound x p) ISCLOSE_DEFAULT_REL_TOL epsilon = true)
    (hleast : ∀ q, q < p →
      isclose x (pyRound x q) ISCLOSE_DEFAULT_REL_TOL epsilon = false) :
    normalize_float x epsilon = pyRound x p := by
  unfold normalize_float
  rw [find?_range_eq_some_of_least _ p 16 hp hf hleast]

/-- The loop of `normalize_float` falls through to `x` when no precision
succeeds. -/
theorem normalize_float_eq_self (x epsilon : Rat)
    (h : ∀ p, p < 16 →
      isclose x (pyRound x p) ISCLOSE_DEFAULT_REL_TOL epsilon = false) :
    normalize_float x epsilon = x := by
  unfold normalize_float
  rw [find?_range_eq_none _ 16 h]

/-- Modelled from the spec: "Rounds `x` to the fewest decimal places (trying
0, 1, 2, … up to 16) such that the rounded value is within `epsilon` of `x`
(absolute tolerance).  Returns `x` unchanged if no such rounding is found."
This is the claim-side reading with a purely absolute tolerance, used for the
refinement comparison with the code's `normalize_float` (which also applies
`math.isclose`'s default relative tolerance). -/
def normalizeFloatSpec (x epsilon : Rat) : Rat :=
  match (List.range 17).find? (fun p => decide (|x - pyRound x p| ≤ epsilon)) with
  | some p => pyRound x p
  | none => x

/-- C3 counterexample.  At `x = 10^10 + 2/5` the code returns `10^10`
(accepted at precision 0 by the *relative* tolerance
`1e-9 * max(|x|, |rounded|) = 10.0000000004`), while the claim's
absolute-tolerance description demands `x` itself (precision 1 reproduces `x`
exactly; precision 0 is off by `0.4 > 1e-9`). -/
theorem c3_normalize_float_counterexample :
    normalize_float (10 ^ 10 + 2 / 5) FLOAT_COMPARISON_EPSILON = 10 ^ 10 ∧
    normalizeFloatSpec (10 ^ 10 + 2 / 5) FLOAT_COMPARISON_EPSILON = 10 ^ 10 + 2 / 5 ∧
    (10 ^ 10 + 2 / 5 : Rat) ≠ 10 ^ 10 := by
  have hround0 : pyRound (10 ^ 10 + 2 / 5) 0 = 10 ^ 10 := by
    unfold pyRound roundHalfEven
    norm_num
  have hround1 : pyRound (10 ^ 10 + 2 / 5) 1 = 10 ^ 10 + 2 / 5 := by
    unfold pyRound roundHalfEven
    norm_num
  refine ⟨?_, ?_, by norm_num⟩
  · have hclose : isclose (10 ^ 10 + 2 / 5) (pyRound (10 ^ 10 + 2 / 5) 0)
        ISCLOSE_DEFAULT_REL_TOL FLOAT_COMPARISON_EPSILON = true := by
      rw [hround0]
      unfold isclose ISCLOSE_DEFAULT_REL_TOL FLOAT_COMPARISON_EPSILON
      rw [decide_eq_true_eq]
      norm_num [max_def, abs_of_nonneg]
    rw [normalize_float_eq_pyRound _ _ 0 (by norm_num) hclose (fun q hq => by omega)]
    exact hround0
  · have h0 : (decide (|(10 ^ 10 + 2 / 5 : Rat) - pyRound (10 ^ 10 + 2 / 5) 0| ≤
        FLOAT_COMPARISON_EPSILON)) = false := by
      rw [hround0, decide_eq_false_iff_not]
      norm_num [FLOAT_COMPARISON_EPSILON, abs_of_nonneg]
    have h1 : (decide (|(10 ^ 10 + 2 / 5 : Rat) - pyRound (10 ^ 10 + 2 / 5) 1| ≤
        FLOAT_COMPARISON_EPSILON)) = true := by
      rw [hround1, decide_eq_true_eq]
      norm_num [FLOAT_COMPARISON_EPSILON]
    unfold normalizeFloatSpec
    rw [find?_range_eq_some_of_least _ 1 17 (by norm_num) h1
      (fun q hq => by interval_cases q; exact h0)]
    exact hround1

/-- C3 (amended).  `normalize_float(x, epsilon=1e-9)` returns `x` rounded to
the fewest decimal places, trying precisions 0, 1, …, 15, such that the
rounded value is within `max(1e-9 * max(|x|, |rounded|), epsilon)` of `x`
(the tolerance of `math.isclose` with its default relative tolerance, not a
purely absolute one), and returns `x` unchanged if no precision succeeds; in
particular `normalize_float(0.30000000000000004) = 0.3`. -/
theorem c3_normalize_float_fewest_digits :
    (∀ x epsilon : Rat, ∀ p : Nat, p < 16 →
      isclose x (pyRound x p) ISCLOSE_DEFAULT_REL_TOL epsilon = true →
      (∀ q, q < p → isclose x (pyRound x q) ISCLOSE_DEFAULT_REL_TOL epsilon = false) →
      normalize_float x epsilon = pyRound x p) ∧
    (∀ x epsilon : Rat,
      (∀ p, p < 16 → isclose x (pyRound x p) ISCLOSE_DEFAULT_REL_TOL epsilon = false) →
      normalize_float x epsilon = x) ∧
    normalize_float (30000000000000004 / 10 ^ 17) FLOAT_COMPARISON_EPSILON = 3 / 10 := by
  refine ⟨normalize_float_eq_pyRound, normalize_float_eq_self, ?_⟩
  have hround0 : pyRound (30000000000000004 / 10 ^ 17) 0 = 0 := by
    unfold pyRound roundHalfEven
    norm_num
  have hround1 : pyRound (30000000000000004 / 10 ^ 17) 1 = 3 / 10 := by
    unfold pyRound roundHalfEven
    norm_num
  have h0 : isclose (30000000000000004 / 10 ^ 17) (pyRound (30000000000000004 / 10 ^ 17) 0)
      ISCLOSE_DEFAULT_REL_TOL FLOAT_COMPARISON_EPSILON = false := by
    rw [hround0]
    unfold isclose ISCLOSE_DEFAULT_REL_TOL FLOAT_COMPARISON_EPSILON
    rw [decide_eq_false_iff_not]
    norm_num [max_def, abs_of_nonneg]
  have h1 : isclose (30000000000000004 / 10 ^ 17) (pyRound (30000000000000004 / 10 ^ 17) 1)
      ISCLOSE_DEFAULT_REL_TOL FLOAT_COMPARISON_EPSILON = true := by
    rw [hround1]
    unfold isclose ISCLOSE_DEFAULT_REL_TOL FLOAT_COMPARISON_EPSILON
    rw [decide_eq_true_eq]
    norm_num [max_def, abs_of_nonneg]
  rw [normalize_float_eq_pyRound _ _ 1 (by norm_num) h1
    (fun q hq => by interval_cases q; exact h0)]
  exact hround1

/-- Closed instance for the C3 amended characterization: at `x = 1/2` the
least succeeding precision is 1 (precision 0 half-even-rounds `0.5` to `0`,
which is not within tolerance), so `normalize_float` returns
`round(0.5, 1) = 0.5`. -/
theorem c3_normalize_float_fewest_digits_witness :
    normalize_float (1 / 2) FLOAT_COMPARISON_EPSILON = pyRound (1 / 2) 1 ∧
    pyRound (1 / 2) 1 = 1 / 2 := by
  have hround0 : pyRound (1 / 2) 0 = 0 := by
    unfold pyRound roundHalfEven
    norm_num
  have hround1 : pyRound (1 / 2 : Rat) 1 = 1 / 2 := by
    unfold pyRound roundHalfEven
    norm_num
  have h0 : isclose (1 / 2) (pyRound (1 / 2) 0)
      ISCLOSE_DEFAULT_REL_TOL FLOAT_COMPARISON_EPSILON = false := by
    rw [hround0]
    unfold isclose ISCLOSE_DEFAULT_REL_TOL FLOAT_COMPARISON_EPSILON
    rw [decide_eq_false_iff_not]
    norm_num [max_def, abs_of_nonneg]
  have h1 : isclose (1 / 2) (pyRound (1 / 2) 1)
      ISCLOSE_DEFAULT_REL_TOL FLOAT_COMPARISON_EPSILON = true := by
    rw [hround1]
    unfold isclose ISCLOSE_DEFAULT_REL_TOL FLOAT_COMPARISON_EPSILON
    rw [decide_eq_true_eq]
    norm_num
  exact ⟨c3_normalize_float_fewest_digits.1 (1 / 2) FLOAT_COMPARISON_EPSILON 1
    (by norm_num) h1 (fun q hq => by interval_cases q; exact h0), hround1⟩

/-- `charsLt` is asymmetric. -/
theorem charsLt_asymm : ∀ (a b : List Char), charsLt a b = true → charsLt b a = false
  | [], [] => by simp [charsLt]
  | [], _ :: _ => fun _ => rfl
  | _ :: _, [] => by simp [charsLt]
  | c :: cs, d :: ds => by
    simp only [charsLt]
    intro h
    by_cases h1 : c.toNat < d.toNat
    · rw [if_neg (by omega : ¬d.toNat < c.toNat), if_pos h1]
    · by_cases h2 : d.toNat < c.toNat
      · rw [if_neg h1, if_pos h2] at h
        exact absurd h (by simp)
      · rw [if_neg h1, if_neg h2] at h
        rw [if_neg h2, if_neg h1]
        exact charsLt_asymm cs ds h

/-- `charsLt` is transitive. -/
theorem charsLt_trans : ∀ (a b c : List Char),
    charsLt a b = true → charsLt b c = true → charsLt a c = true
  | [], [], _ => by simp [charsLt]
  | [], _ :: _, [] => fun _ h2 => by simp [charsLt] at h2
  | [], _ :: _, _ :: _ => fun _ _ => rfl
  | _ :: _, [], _ => fun h1 => by simp [charsLt] at h1
  | _ :: _, _ :: _, [] => fun _ h2 => by simp [charsLt] at h2
  | a :: as, b :: bs, c :: cs => by
    simp only [charsLt]
    intro h1 h2
    by_cases hab : a.toNat < b.toNat <;> by_cases hbc : b.toNat < c.toNat
    · rw [if_pos (by omega : a.toNat < c.toNat)]
    · by_cases hcb : c.toNat < b.toNat
      · rw [if_neg hbc, if_pos hcb] at h2
        exact absurd h2 (by simp)
      · rw [if_pos (by omega : a.toNat < c.toNat)]
    · by_cases hba : b.toNat < a.toNat
      · rw [if_neg hab, if_pos hba] at h1
        exact absurd h1 (by simp)
      · rw [if_pos (by omega : a.toNat < c.toNat)]
    · by_cases hba : b.toNat < a.toNat
      · rw [if_neg hab, if_pos hba] at h1
        exact absurd h1 (by simp)
      · by_cases hcb : c.toNat < b.toNat
        · rw [if_neg hbc, if_pos hcb] at h2
          exact absurd h2 (by simp)
        · rw [if_neg hab, if_neg hba] at h1
          rw [if_neg hbc, if_neg hcb] at h2
          rw [if_neg (by omega : ¬a.toNat < c.toNat),
            if_neg (by omega : ¬c.toNat < a.toNat)]
          exact charsLt_trans as bs cs h1 h2

/-- Two char lists unrelated by `charsLt` in either direction are equal. -/
theorem charsLt_connex : ∀ (a b : List Char),
    charsLt a b = false → charsLt b a = false → a = b
  | [], [] => fun _ _ => rfl
  | [], _ :: _ => by simp [charsLt]
  | _ :: _, [] => fun _ h2 => by simp [charsLt] at h2
  | c :: cs, d :: ds => by
    simp only [charsLt]
    intro h1 h2
    by_cases hcd : c.toNat < d.toNat
    · rw [if_pos hcd] at h1
      exact absurd h1 (by simp)
    · by_cases hdc : d.toNat < c.toNat
      · rw [if_pos hdc] at h2
        exact absurd h2 (by simp)
      · have hn : c.toNat = d.toNat := by omega
        have hc : c = d := Char.ext (UInt32.ext hn)
        rw [if_neg hcd, if_neg hdc] at h1
        rw [if_neg hdc, if_neg hcd] at h2
        rw [hc, charsLt_connex cs ds h1 h2]

/-- Trichotomy for `charsLt`. -/
theorem charsLt_trichotomy (a b : List Char) :
    charsLt a b = true ∨ a = b ∨ charsLt b a = true := by
  cases hab : charsLt a b with
  | true => exact Or.inl rfl
  | false =>
    cases hba : charsLt b a with
    | true => exact Or.inr (Or.inr rfl)
    | false => exact Or.inr (Or.inl (charsLt_connex a b hab hba))

/-- Strings unrelated by `strLt` in either direction are equal. -/
theorem strLt_connex (a b : String) (h1 : strLt a b = false) (h2 : strLt b a = false) :
    a = b := by
  have := charsLt_connex a.data b.data h1 h2
  exact String.toList_inj.mp this

/-- The node-content order is total. -/
instance : IsTotal (String × Json) pairKeyLe := by
  constructor
  intro a b
  unfold pairKeyLe strLe
  cases h : strLt b.1 a.1 with
  | false => exact Or.inl rfl
  | true =>
    have := charsLt_asymm b.1.data a.1.data h
    exact Or.inr (by simp [strLt, this])

/-- The node-content order is transitive. -/
instance : IsTrans (String × Json) pairKeyLe := by
  constructor
  intro a b c hab hbc
  unfold pairKeyLe strLe at hab hbc ⊢
  simp only [Bool.not_eq_true', strLt] at hab hbc ⊢
  cases hca : charsLt c.1.data a.1.data with
  | false => rfl
  | true =>
    exfalso
    rcases charsLt_trichotomy b.1.data c.1.data with hlt | heq | hgt
    · have := charsLt_trans b.1.data c.1.data a.1.data hlt hca
      rw [this] at hab
      cases hab
    · rw [heq] at hab
      rw [hca] at hab
      cases hab
    · rw [hgt] at hbc
      cases hbc

/-- The key order used by `canonicalize_json` is total (same underlying
string order). -/
instance : IsTotal (String × Json) (fun a b => pairKeyLe a b) :=
  ⟨fun a b => IsTotal.total (r := pairKeyLe) a b⟩

/-- Transitivity transported to the lambda form. -/
instance : IsTrans (String × Json) (fun a b => pairKeyLe a b) :=
  ⟨fun a b c => IsTrans.trans (r := pairKeyLe) a b c⟩

/-- First normalization step of the C4 counterexample:
`normalize_float(1.2e-9) = 1e-9` (precisions 0–8 round to `0`, which is more
than `1e-9` away; precision 9 rounds to `1e-9`, accepted). -/
theorem normalize_float_c4_step1 :
    normalize_float (12 / 10 ^ 10) FLOAT_COMPARISON_EPSILON = 1 / 10 ^ 9 := by
  have hroundsmall : ∀ q : Nat, q < 9 → pyRound (12 / 10 ^ 10) q = 0 := by
    intro q hq
    interval_cases q <;> (unfold pyRound roundHalfEven; norm_num)
  have hround9 : pyRound (12 / 10 ^ 10) 9 = 1 / 10 ^ 9 := by
    unfold pyRound roundHalfEven
    norm_num
  have h9 : isclose (12 / 10 ^ 10) (pyRound (12 / 10 ^ 10) 9)
      ISCLOSE_DEFAULT_REL_TOL FLOAT_COMPARISON_EPSILON = true := by
    rw [hround9]
    unfold isclose ISCLOSE_DEFAULT_REL_TOL FLOAT_COMPARISON_EPSILON
    rw [decide_eq_true_eq]
    norm_num [max_def, abs_of_nonneg]
  have hsmall : ∀ q : Nat, q < 9 → isclose (12 / 10 ^ 10) (pyRound (12 / 10 ^ 10) q)
      ISCLOSE_DEFAULT_REL_TOL FLOAT_COMPARISON_EPSILON = false := by
    intro q hq
    rw [hroundsmall q hq]
    unfold isclose ISCLOSE_DEFAULT_REL_TOL FLOAT_COMPARISON_EPSILON
    rw [decide_eq_false_iff_not]
    norm_num [max_def, abs_of_nonneg]
  rw [normalize_float_eq_pyRound _ _ 9 (by norm_num) h9 hsmall]
  exact hround9

/-- Second normalization step of the C4 counterexample:
`normalize_float(1e-9) = 0.0` (precision 0 rounds to `0`, and `1e-9 ≤ 1e-9`
is within tolerance). -/
theorem normalize_float_c4_step2 :
    normalize_float (1 / 10 ^ 9) FLOAT_COMPARISON_EPSILON = 0 := by
  have hround0 : pyRound (1 / 10 ^ 9) 0 = 0 := by
    unfold pyRound roundHalfEven
    norm_num
  have h0 : isclose (1 / 10 ^ 9) (pyRound (1 / 10 ^ 9) 0)
      ISCLOSE_DEFAULT_REL_TOL FLOAT_COMPARISON_EPSILON = true := by
    rw [hround0]
    unfold isclose ISCLOSE_DEFAULT_REL_TOL FLOAT_COMPARISON_EPSILON
    rw [decide_eq_true_eq]
    norm_num [max_def, abs_of_nonneg]
  rw [normalize_float_eq_pyRound _ _ 0 (by norm_num) h0 (fun q hq => by omega)]
  exact hround0

/-- C4 counterexample.  `canonicalize` is not idempotent: at the float
`1.2e-9`, one application yields `1e-9` (accepted at precision 9) but a
second application collapses that to `0.0` (now accepted already at
precision 0, since `|1e-9 - 0| ≤ 1e-9`). -/
theorem c4_canonicalize_not_idempotent :
    canonicalize_json (.float (12 / 10 ^ 10)) = .float (1 / 10 ^ 9) ∧
    canonicalize_json (canonicalize_json (.float (12 / 10 ^ 10))) = .float 0 ∧
    canonicalize_json (canonicalize_json (.float (12 / 10 ^ 10))) ≠
      canonicalize_json (.float (12 / 10 ^ 10)) := by
  have h1 : canonicalize_json (.float (12 / 10 ^ 10)) = .float (1 / 10 ^ 9) := by
    simp only [canonicalize_json]
    rw [normalize_float_c4_step1]
  have h2 : canonicalize_json (canonicalize_json (.float (12 / 10 ^ 10))) = .float 0 := by
    rw [h1]
    simp only [canonicalize_json]
    rw [normalize_float_c4_step2]
  refine ⟨h1, h2, ?_⟩
  rw [h2, h1]
  intro hcontra
  injection hcontra with hq
  norm_num at hq

mutual

/-- A JSON value containing no float leaf. -/
def floatFree : Json → Bool
  | .float _ => false
  | .arr l => floatFreeList l
  | .obj l => floatFreePairs l
  | .str _ => true
  | .int _ => true
  | .bool _ => true
termination_by structural j => j

/-- Float-freeness of a list of values. -/
def floatFreeList : List Json → Bool
  | [] => true
  | x :: xs => floatFree x && floatFreeList xs
termination_by structural l => l

/-- Float-freeness of the values of an object. -/
def floatFreePairs : List (String × Json) → Bool
  | [] => true
  | (_, v) :: xs => floatFree v && floatFreePairs xs
termination_by structural l => l

end

mutual

/-- `canonicalize_json` is idempotent on float-free values. -/
theorem canonicalize_json_idem : ∀ (v : Json), floatFree v = true →
    canonicalize_json (canonicalize_json v) = canonicalize_json v
  | .str s, _ => rfl
  | .int n, _ => rfl
  | .bool b, _ => rfl
  | .float q, h => by simp [floatFree] at h
  | .arr l, h => by
    simp only [canonicalize_json]
    congr 1
    rw [canonicalizeList_eq_map, canonicalizeList_eq_map, List.map_map]
    apply List.map_congr_left
    intro x hx
    exact canonicalize_json_idem_list l (by simpa [floatFree] using h) x hx
  | .obj l, h => by
    simp only [canonicalize_json]
    congr 1
    have hpt : ∀ p ∈ List.insertionSort pairKeyLe (canonicalizePairs l),
        canonicalize_json p.2 = p.2 := by
      intro p hp
      have hp2 : p ∈ canonicalizePairs l := (List.perm_insertionSort _ _).subset hp
      rw [canonicalizePairs_eq_map] at hp2
      rcases List.mem_map.mp hp2 with ⟨q, hq, rfl⟩
      exact canonicalize_json_idem_pairs l (by simpa [floatFree] using h) q hq
    rw [canonicalizePairs_eq_map]
    have hid : (List.insertionSort pairKeyLe (canonicalizePairs l)).map
        (fun p => (p.1, canonicalize_json p.2)) =
        List.insertionSort pairKeyLe (canonicalizePairs l) := by
      calc (List.insertionSort pairKeyLe (canonicalizePairs l)).map
            (fun p => (p.1, canonicalize_json p.2))
          = (List.insertionSort pairKeyLe (canonicalizePairs l)).map id := by
            apply List.map_congr_left
            intro p hp
            rw [hpt p hp]
            rfl
        _ = List.insertionSort pairKeyLe (canonicalizePairs l) := List.map_id _
    rw [hid]
    exact List.Sorted.insertionSort_eq (List.sorted_insertionSort _ _)
termination_by structural v => v

/-- Pointwise idempotence over a float-free list. -/
theorem canonicalize_json_idem_list : ∀ (l : List Json), floatFreeList l = true →
    ∀ x ∈ l, canonicalize_json (canonicalize_json x) = canonicalize_json x
  | [], _, x, hx => absurd hx (List.not_mem_nil x)
  | y :: ys, h, x, hx => by
    simp only [floatFreeList, Bool.and_eq_true] at h
    rcases List.mem_cons.mp hx with hxy | htail
    · exact hxy ▸ canonicalize_json_idem y h.1
    · exact canonicalize_json_idem_list ys h.2 x htail
termination_by structural l => l

/-- Pointwise idempotence over the values of a float-free object. -/
theorem canonicalize_json_idem_pairs : ∀ (l : List (String × Json)),
    floatFreePairs l = true →
    ∀ p ∈ l, canonicalize_json (canonicalize_json p.2) = canonicalize_json p.2
  | [], _, p, hp => absurd hp (List.not_mem_nil p)
  | (k, v) :: ys, h, p, hp => by
    simp only [floatFreePairs, Bool.and_eq_true] at h
    rcases List.mem_cons.mp hp with hpv | htail
    · exact hpv ▸ canonicalize_json_idem v h.1
    · exact canonicalize_json_idem_pairs ys h.2 p htail
termination_by structural l => l

end

/-- C4 (amended).  `canonicalize` is idempotent on every JSON value
containing no float leaf: `canonicalize(canonicalize(v)) = canonicalize(v)`.
(With float leaves idempotence fails; see the counterexample at `1.2e-9`.) -/
theorem c4_canonicalize_idempotent_float_free (v : Json) (h : floatFree v = true) :
    canonicalize_json (canonicalize_json v) = canonicalize_json v :=
  canonicalize_json_idem v h

/-- Closed instance for C4 (amended): a float-free object with unsorted keys
and a nested list. -/
theorem c4_canonicalize_idempotent_float_free_witness :
    canonicalize_json (canonicalize_json
      (.obj [("b", .int 1), ("a", .arr [.str "x", .bool true])])) =
    canonicalize_json (.obj [("b", .int 1), ("a", .arr [.str "x", .bool true])]) :=
  c4_canonicalize_idempotent_float_free
    (.obj [("b", .int 1), ("a", .arr [.str "x", .bool true])]) rfl

/-- Two sorted association lists that are permutations of each other with
duplicate-free keys are equal (key-sorting determines the order when keys are
unique). -/
theorem sorted_pairKeyLe_perm_nodup_eq : ∀ (l1 l2 : List (String × Json)),
    l1.Perm l2 → l1.Sorted pairKeyLe → l2.Sorted pairKeyLe →
    (l1.map Prod.fst).Nodup → l1 = l2
  | [], l2, hp, _, _, _ => (List.Perm.eq_nil hp.symm).symm
  | a :: t1, l2, hp, hs1, hs2, hnd => by
    cases l2 with
    | nil => exact absurd (List.Perm.eq_nil hp) (by simp)
    | cons b t2 =>
      rw [List.map_cons] at hnd
      have ha : a ∈ b :: t2 := hp.subset (List.mem_cons_self _ _)
      have hb : b ∈ a :: t1 := hp.symm.subset (List.mem_cons_self _ _)
      have hab : a = b := by
        rcases List.mem_cons.mp ha with h | hat2
        · exact h
        · rcases List.mem_cons.mp hb with h | hbt1
          · exact h.symm
          · have h1 : pairKeyLe a b := (List.sorted_cons.mp hs1).1 b hbt1
            have h2 : pairKeyLe b a := (List.sorted_cons.mp hs2).1 a hat2
            have hkey : a.1 = b.1 := by
              unfold pairKeyLe strLe at h1 h2
              simp only [Bool.not_eq_true'] at h1 h2
              exact strLt_connex a.1 b.1 h2 h1
            exfalso
            have hmem : a.1 ∈ t1.map Prod.fst := List.mem_map.mpr ⟨b, hbt1, hkey.symm⟩
            exact (List.nodup_cons.mp hnd).1 hmem
      subst hab
      have htl := sorted_pairKeyLe_perm_nodup_eq t1 t2 hp.cons_inv
        (List.sorted_cons.mp hs1).2 (List.sorted_cons.mp hs2).2
        (List.nodup_cons.mp hnd).2
      rw [htl]

/-- Chain check that the keys of an association list are ascending. -/
def keyChainSorted : List (String × Json) → Bool
  | [] => true
  | [_] => true
  | x :: y :: rest => strLe x.1 y.1 && keyChainSorted (y :: rest)

/-- A `Sorted pairKeyLe` list passes the ascending-keys chain check. -/
theorem keyChainSorted_of_sorted : ∀ (l : List (String × Json)),
    l.Sorted pairKeyLe → keyChainSorted l = true
  | [], _ => rfl
  | [_], _ => rfl
  | x :: y :: rest, h => by
    have h1 := (List.sorted_cons.mp h).1 y (List.mem_cons_self _ _)
    have h2 := (List.sorted_cons.mp h).2
    simp only [keyChainSorted, Bool.and_eq_true]
    exact ⟨h1, keyChainSorted_of_sorted (y :: rest) h2⟩

mutual

/-- Deep canonical-form check: every object in the value has ascending
keys, at every nesting level. -/
def canonSorted : Json → Bool
  | .obj l => keyChainSorted l && canonSortedPairs l
  | .arr l => canonSortedList l
  | .str _ => true
  | .int _ => true
  | .float _ => true
  | .bool _ => true
termination_by structural j => j

/-- Deep canonical-form check over a list of values. -/
def canonSortedList : List Json → Bool
  | [] => true
  | x :: xs => canonSorted x && canonSortedList xs
termination_by structural l => l

/-- Deep canonical-form check over the values of an object. -/
def canonSortedPairs : List (String × Json) → Bool
  | [] => true
  | (_, v) :: xs => canonSorted v && canonSortedPairs xs
termination_by structural l => l

end

/-- `canonSortedList` is an `all`. -/
theorem canonSortedList_eq_all (l : List Json) :
    canonSortedList l = l.all canonSorted := by
  induction l with
  | nil => rfl
  | cons x xs ih => simp only [canonSortedList, List.all_cons, ih]

/-- `canonSortedPairs` is an `all` over the values. -/
theorem canonSortedPairs_eq_all (l : List (String × Json)) :
    canonSortedPairs l = l.all (fun p => canonSorted p.2) := by
  induction l with
  | nil => rfl
  | cons p xs ih =>
    obtain ⟨k, v⟩ := p
    simp only [canonSortedPairs, List.all_cons, ih]

mutual

/-- The output of `canonicalize_json` has ascending keys at every nesting
level. -/
theorem canonSorted_canonicalize : ∀ (v : Json),
    canonSorted (canonicalize_json v) = true
  | .str s => rfl
  | .int n => rfl
  | .bool b => rfl
  | .float q => rfl
  | .arr l => by
    simp only [canonicalize_json, canonSorted, canonicalizeList_eq_map,
      canonSortedList_eq_all, List.all_eq_true]
    intro x hx
    rcases List.mem_map.mp hx with ⟨y, hy, rfl⟩
    exact canonSorted_canonicalize_list l y hy
  | .obj l => by
    simp only [canonicalize_json, canonSorted, Bool.and_eq_true]
    constructor
    · exact keyChainSorted_of_sorted _ (List.sorted_insertionSort _ _)
    · simp only [canonSortedPairs_eq_all, List.all_eq_true]
      intro p hp
      have hp2 : p ∈ canonicalizePairs l := (List.perm_insertionSort _ _).subset hp
      rw [canonicalizePairs_eq_map] at hp2
      rcases List.mem_map.mp hp2 with ⟨q, hq, rfl⟩
      exact canonSorted_canonicalize_pairs l q hq
termination_by structural v => v

/-- Pointwise deep-sortedness over a list. -/
theorem canonSorted_canonicalize_list : ∀ (l : List Json), ∀ x ∈ l,
    canonSorted (canonicalize_json x) = true
  | [], x, hx => absurd hx (List.not_mem_nil x)
  | y :: ys, x, hx => by
    rcases List.mem_cons.mp hx with hxy | htail
    · exact hxy ▸ canonSorted_canonicalize y
    · exact canonSorted_canonicalize_list ys x htail
termination_by structural l => l

/-- Pointwise deep-sortedness over the values of an object. -/
theorem canonSorted_canonicalize_pairs : ∀ (l : List (String × Json)), ∀ p ∈ l,
    canonSorted (canonicalize_json p.2) = true
  | [], p, hp => absurd hp (List.not_mem_nil p)
  | (k, v) :: ys, p, hp => by
    rcases List.mem_cons.mp hp with hpv | htail
    · exact hpv ▸ canonSorted_canonicalize v
    · exact canonSorted_canonicalize_pairs ys p htail
termination_by structural l => l

end

/-- C5.  Key-order invariance: for any Object and any permutation of its
entries with identical key-value pairs (keys unique, as in any Python dict),
the canonical serializations are identical — `canonicalize_json` even
produces the same object; and `canonicalize_json` reorders keys ascending at
every nesting level of its output. -/
theorem c5_key_order_invariance :
    (∀ l l2 : List (String × Json), l.Perm l2 → (l.map Prod.fst).Nodup →
      stringify (canonicalize_json (.obj l)) = stringify (canonicalize_json (.obj l2))) ∧
    (∀ v : Json, canonSorted (canonicalize_json v) = true) := by
  constructor
  · intro l l2 hp hnd
    have hperm : (List.insertionSort pairKeyLe (canonicalizePairs l)).Perm
        (List.insertionSort pairKeyLe (canonicalizePairs l2)) := by
      refine (List.perm_insertionSort _ _).trans (.trans ?_ (List.perm_insertionSort _ _).symm)
      rw [canonicalizePairs_eq_map, canonicalizePairs_eq_map]
      exact hp.map _
    have hkeys : (canonicalizePairs l).map Prod.fst = l.map Prod.fst := by
      rw [canonicalizePairs_eq_map, List.map_map]
      rfl
    have hkeysperm : ((List.insertionSort pairKeyLe (canonicalizePairs l)).map
        Prod.fst).Perm (l.map Prod.fst) := by
      have h1 := (List.perm_insertionSort pairKeyLe (canonicalizePairs l)).map Prod.fst
      rwa [hkeys] at h1
    have hnds : ((List.insertionSort pairKeyLe (canonicalizePairs l)).map
        Prod.fst).Nodup := hkeysperm.nodup_iff.mpr hnd
    have heq : List.insertionSort pairKeyLe (canonicalizePairs l) =
        List.insertionSort pairKeyLe (canonicalizePairs l2) :=
      sorted_pairKeyLe_perm_nodup_eq _ _ hperm
        (List.sorted_insertionSort _ _) (List.sorted_insertionSort _ _) hnds
    simp only [canonicalize_json, heq]
  · exact canonSorted_canonicalize

/-- Closed instance for C5: swapping the two entries of
`{"b": 1, "a": [2]}` leaves the canonical serialization unchanged, and the
canonical form of a nested unsorted object passes the deep ascending-keys
check. -/
theorem c5_key_order_invariance_witness :
    stringify (canonicalize_json (.obj [("b", .int 1), ("a", .arr [.int 2])])) =
      stringify (canonicalize_json (.obj [("a", .arr [.int 2]), ("b", .int 1)])) ∧
    canonSorted (canonicalize_json
      (.obj [("b", .obj [("d", .int 1), ("c", .int 2)]), ("a", .int 3)])) = true :=
  ⟨c5_key_order_invariance.1 _ _ (List.Perm.swap _ _ _) (by decide),
   c5_key_order_invariance.2 _⟩

/-!
Heap model for the frame claim (C10).  The code's only mutations are dict-key
assignments (`new_node[INPUTS_KEY] = …` in `remap_node_ids`, and
`node[INPUTS_KEY] = {}` in `clear_inputs`); lists are never mutated by this
code, so dicts are the only heap objects of the model: a value holds a dict
by address into a store, mirroring Python aliasing of dicts, while lists and
scalars are structural.  A dict built up by assignments before it can be
referenced from anywhere else is allocated with its finished contents.
Recursion over heap values (canonicalize, stringify) takes a fuel parameter:
Python raises `RecursionError` / `ValueError: Circular reference detected` on
cyclic dicts, modelled by the error on fuel exhaustion.
-/

/-- Heap values: dicts live in the store, everything else is structural. -/
inductive HVal where
  | str (s : String)
  | int (n : Int)
  | float (q : Rat)
  | bool (b : Bool)
  | arr (l : List HVal)
  | dict (addr : Nat)

/-- The heap: dict contents by address; allocation appends. -/
abbrev Store := List (List (String × HVal))

/-- Read a dict's contents (a dangling address, impossible in Python, reads
as empty). -/
def dictRead (σ : Store) (a : Nat) : List (String × HVal) :=
  List.getD σ a []

/-- Python dict lookup `d[k]` on heap dict contents. -/
def hDictGet (l : List (String × HVal)) (k : String) : Option HVal :=
  match l.find? (fun p => p.1 == k) with
  | some p => some p.2
  | none => none

/-- Python dict assignment `d[k] = v` on heap dict contents. -/
def hDictSet (l : List (String × HVal)) (k : String) (v : HVal) :
    List (String × HVal) :=
  if l.any (fun p => p.1 == k) then
    l.map (fun p => if p.1 == k then (p.1, v) else p)
  else l ++ [(k, v)]

/-- In-place dict-key assignment `σ[a][k] = v`. -/
def storeSetKey (σ : Store) (a : Nat) (k : String) (v : HVal) : Store :=
  List.set σ a (hDictSet (dictRead σ a) k v)

/-- The `id_mapping` on heap workflows. -/
def hIdMapping (workflow : List (String × HVal)) : List (String × Nat) :=
  (workflow.map Prod.fst).enum.map (fun p => (p.2, p.1))

/-- Lookup in a string-to-index mapping (same as `idLookup`). -/
def hIdLookup (m : List (String × Nat)) (k : String) : Option Nat :=
  match m.find? (fun p => p.1 == k) with
  | some p => some p.2
  | none => none

mutual

/-- Heap `stringify` (read-only): `json.dumps` with compact separators,
raising on fuel exhaustion as `dumps` raises on circular references. -/
def pyStringify : Nat → Store → HVal → Except Err String
  | 0, _, _ => .error (.valueError "Circular reference detected")
  | fuel + 1, σ, v =>
    match v with
    | .str s => .ok (quoteJson s)
    | .int n => .ok (toString n)
    | .float q => .ok (floatRepr q)
    | .bool b => .ok (if b then "true" else "false")
    | .arr l => do
      let s ← pyStringifyList fuel σ l
      .ok ("[" ++ s ++ "]")
    | .dict a => do
      let s ← pyStringifyPairs fuel σ (dictRead σ a)
      .ok ("\x7b" ++ s ++ "\x7d")
termination_by fuel _ _ => (fuel, 0)

/-- Heap `stringify` of array elements. -/
def pyStringifyList : Nat → Store → List HVal → Except Err String
  | _, _, [] => .ok ""
  | fuel, σ, [x] => pyStringify fuel σ x
  | fuel, σ, x :: y :: xs => do
    let s1 ← pyStringify fuel σ x
    let s2 ← pyStringifyList fuel σ (y :: xs)
    .ok (s1 ++ "," ++ s2)
termination_by fuel _ l => (fuel, l.length + 1)

/-- Heap `stringify` of dict entries. -/
def pyStringifyPairs : Nat → Store → List (String × HVal) → Except Err String
  | _, _, [] => .ok ""
  | fuel, σ, [(k, v)] => do
    let s ← pyStringify fuel σ v
    .ok (quoteJson k ++ ":" ++ s)
  | fuel, σ, (k, v) :: y :: xs => do
    let s1 ← pyStringify fuel σ v
    let s2 ← pyStringifyPairs fuel σ (y :: xs)
    .ok (quoteJson k ++ ":" ++ s1 ++ "," ++ s2)
termination_by fuel _ l => (fuel, l.length + 1)

end

mutual

/-- Heap `canonicalize_json`: allocates a fresh dict for every dict level of
its output (as Python's `dict(sorted(...))` does); no existing object is
written. -/
def pyCanonicalize : Nat → Store → HVal → (Except Err HVal) × Store
  | 0, σ, _ => (.error (.valueError "maximum recursion depth exceeded"), σ)
  | fuel + 1, σ, v =>
    match v with
    | .float q => (.ok (.float (normalize_float q FLOAT_COMPARISON_EPSILON)), σ)
    | .dict a =>
      match pyCanonPairs fuel σ (dictRead σ a) with
      | (.error e, σ1) => (.error e, σ1)
      | (.ok cps, σ1) =>
        (.ok (.dict σ1.length),
         σ1 ++ [List.insertionSort (fun x y : String × HVal => strLe x.1 y.1 = true) cps])
    | .arr l =>
      match pyCanonList fuel σ l with
      | (.error e, σ1) => (.error e, σ1)
      | (.ok xs, σ1) => (.ok (.arr xs), σ1)
    | x => (.ok x, σ)
termination_by fuel _ _ => (fuel, 0)

/-- Heap canonicalization of array elements, threading the store. -/
def pyCanonList : Nat → Store → List HVal → (Except Err (List HVal)) × Store
  | _, σ, [] => (.ok [], σ)
  | fuel, σ, x :: xs =>
    match pyCanonicalize fuel σ x with
    | (.error e, σ1) => (.error e, σ1)
    | (.ok x1, σ1) =>
      match pyCanonList fuel σ1 xs with
      | (.error e, σ2) => (.error e, σ2)
      | (.ok xs1, σ2) => (.ok (x1 :: xs1), σ2)
termination_by fuel _ l => (fuel, l.length + 1)

/-- Heap canonicalization of the values of dict entries. -/
def pyCanonPairs : Nat → Store → List (String × HVal) →
    (Except Err (List (String × HVal))) × Store
  | _, σ, [] => (.ok [], σ)
  | fuel, σ, (k, v) :: xs =>
    match pyCanonicalize fuel σ v with
    | (.error e, σ1) => (.error e, σ1)
    | (.ok v1, σ1) =>
      match pyCanonPairs fuel σ1 xs with
      | (.error e, σ2) => (.error e, σ2)
      | (.ok xs1, σ2) => (.ok ((k, v1) :: xs1), σ2)
termination_by fuel _ l => (fuel, l.length + 1)

end

/-- Heap version of `strip_metadata`'s per-node work: builds the fresh
`new_node` dict (metadata and `inputs` dropped), requires `inputs` present
and a dict, and installs the fresh filtered `inputs` dict on the copy. -/
def pyStripNode (σ : Store) (node : HVal) : (Except Err HVal) × Store :=
  match node with
  | .dict a =>
    let pairs := dictRead σ a
    let newNode := pairs.filter
      (fun p => !(METADATA_KEYS.contains p.1) && p.1 != INPUTS_KEY)
    let σ1 := σ ++ [newNode]
    match hDictGet pairs INPUTS_KEY with
    | none => (.error (.keyError INPUTS_KEY), σ1)
    | some inputs =>
      match inputs with
      | .dict ia =>
        let filtered := (dictRead σ1 ia).filter
          (fun q => !(IGNORED_INPUTS_KEYS.contains q.1))
        let σ2 := σ1 ++ [filtered]
        (.ok (.dict σ.length), storeSetKey σ2 σ.length INPUTS_KEY (.dict σ1.length))
      | _ => (.error (.valueError "Workflow inputs should be a dict."), σ1)
  | x => (.ok x, σ)

/-- Heap `strip_metadata` over the node entries (the resulting
`new_workflow` dict is allocated by the caller). -/
def pyStripMetadata (σ : Store) : List (String × HVal) →
    (Except Err (List (String × HVal))) × Store
  | [] => (.ok [], σ)
  | (nodeId, nodeObj) :: rest =>
    match pyStripNode σ nodeObj with
    | (.error e, σ1) => (.error e, σ1)
    | (.ok n, σ1) =>
      match pyStripMetadata σ1 rest with
      | (.error e, σ2) => (.error e, σ2)
      | (.ok r, σ2) => (.ok ((nodeId, n) :: r), σ2)

/-- Pure remapping of one input value (same reference test as
`remapValue`). -/
def hRemapValue (m : List (String × Nat)) : HVal → Except Err HVal
  | .arr [.str s, w] =>
    match hIdLookup m s with
    | some i => .ok (.arr [.int i, w])
    | none => .error (.keyError s)
  | v => .ok v

/-- Pure remapping of the entries of an inputs dict. -/
def hRemapInputs (m : List (String × Nat)) : List (String × HVal) →
    Except Err (List (String × HVal))
  | [] => .ok []
  | (k, v) :: rest => do
    let v1 ← hRemapValue m v
    let r ← hRemapInputs m rest
    .ok ((k, v1) :: r)

/-- Heap version of `remap_node_ids`'s per-node work: `new_node =
node_obj.copy()` allocates a fresh dict; the remapped `inputs` dict is fresh;
the copy's `inputs` key is overwritten in place. -/
def pyRemapNode (σ : Store) (m : List (String × Nat)) (node : HVal) :
    (Except Err HVal) × Store :=
  match node with
  | .dict a =>
    let pairs := dictRead σ a
    let σ1 := σ ++ [pairs]
    match hDictGet pairs INPUTS_KEY with
    | none => (.error (.keyError INPUTS_KEY), σ1)
    | some inputs =>
      match inputs with
      | .dict ia =>
        match hRemapInputs m (dictRead σ1 ia) with
        | .error e => (.error e, σ1)
        | .ok ri =>
          let σ2 := σ1 ++ [ri]
          (.ok (.dict σ.length), storeSetKey σ2 σ.length INPUTS_KEY (.dict σ1.length))
      | _ => (.error (.valueError "Workflow inputs should be a dict."), σ1)
  | x => (.ok x, σ)

/-- Heap remap loop over the node entries. -/
def pyRemapNodes (σ : Store) (m : List (String × Nat)) : List (String × HVal) →
    (Except Err (List HVal)) × Store
  | [] => (.ok [], σ)
  | (_, nodeObj) :: rest =>
    match pyRemapNode σ m nodeObj with
    | (.error e, σ1) => (.error e, σ1)
    | (.ok n, σ1) =>
      match pyRemapNodes σ1 m rest with
      | (.error e, σ2) => (.error e, σ2)
      | (.ok r, σ2) => (.ok (n :: r), σ2)

/-- Heap `remap_node_ids` on the entries of a (sorted) workflow dict. -/
def pyRemapNodeIds (σ : Store) (workflow : List (String × HVal)) :
    (Except Err (List HVal × List (String × Nat))) × Store :=
  match pyRemapNodes σ (hIdMapping workflow) workflow with
  | (.error e, σ1) => (.error e, σ1)
  | (.ok nodes, σ1) => (.ok (nodes, hIdMapping workflow), σ1)

/-- Translation of the ignored node IDs (pure). -/
def hLookupIgnored (m : List (String × Nat)) : List String → Except Err (List Nat)
  | [] => .ok []
  | nodeId :: rest =>
    match hIdLookup m nodeId with
    | some i => do
      let r ← hLookupIgnored m rest
      .ok (i :: r)
    | none => .error (.keyError nodeId)

/-- Heap `clear_inputs`: on a dict node, allocate the fresh `{}` and assign
it to the node's `inputs` key in place; otherwise do nothing. -/
def pyClearInputs (σ : Store) (node : HVal) : Store :=
  match node with
  | .dict a => storeSetKey (σ ++ [[]]) a INPUTS_KEY (.dict σ.length)
  | _ => σ

/-- Heap ignore loop of `are_sorted_workflows_equal`.  (The indices always
lie within `remapped` in Python, being values of its `id_mapping`; an
out-of-range read here yields a scalar and clears nothing.) -/
def pyApplyIgnored (σ : Store) : List Nat → List HVal → List HVal → Store
  | [], _, _ => σ
  | i :: rest, remapped, other =>
    let σ1 := pyClearInputs σ (remapped.getD i (.int 0))
    let σ2 := if i < other.length then pyClearInputs σ1 (other.getD i (.int 0)) else σ1
    pyApplyIgnored σ2 rest remapped other

/-- String-level `compare_json` result. -/
def hCompareStrings (s1 s2 : String) : Int :=
  (if strLt s2 s1 then 1 else 0) - (if strLt s1 s2 then 1 else 0)

/-- Heap `sort_workflow`: strip (fresh dicts), canonicalize (fresh dicts),
serialize each canonical node (read-only), and build the sorted fresh result
dict.  Python's `sorted(..., key=f)` computes each key once and sorts by the
precomputed keys with a stable sort. -/
def pySortWorkflow (fuel : Nat) (σ : Store) (w : HVal) : (Except Err HVal) × Store :=
  match w with
  | .dict a =>
    match pyStripMetadata σ (dictRead σ a) with
    | (.error e, σ1) => (.error e, σ1)
    | (.ok stripped, σ1) =>
      let σ1' := σ1 ++ [stripped]
      match pyCanonPairs fuel σ1' stripped with
      | (.error e, σ2) => (.error e, σ2)
      | (.ok canonical, σ2) =>
        let σ2' := σ2 ++ [canonical]
        match canonical.mapM (fun p => pyStringify fuel σ2' p.2) with
        | .error e => (.error e, σ2')
        | .ok keys =>
          let sortedPairs := (List.insertionSort
            (fun x y : String × (String × HVal) => strLe x.1 y.1 = true)
            (keys.zip canonical)).map Prod.snd
          (.ok (.dict σ2'.length), σ2' ++ [sortedPairs])
  | x => (.ok x, σ)

/-- Heap `are_sorted_workflows_equal`: remap both workflows, translate the
ignore list, clear the ignored positions in place (on the fresh copies), and
compare the serializations of the two remapped node lists. -/
def pyAreSortedWorkflowsEqual (fuel : Nat) (σ : Store) (w ow : HVal)
    (ignoredNodes : List String) : (Except Err Bool) × Store :=
  match w, ow with
  | .dict aw, .dict aow =>
    match pyRemapNodeIds σ (dictRead σ aw) with
    | (.error e, σ1) => (.error e, σ1)
    | (.ok (remapped, m), σ1) =>
      match hLookupIgnored m ignoredNodes with
      | .error e => (.error e, σ1)
      | .ok remappedIgnored =>
        match pyRemapNodeIds σ1 (dictRead σ1 aow) with
        | (.error e, σ2) => (.error e, σ2)
        | (.ok (remappedOther, _), σ2) =>
          let σ3 := pyApplyIgnored σ2 remappedIgnored remapped remappedOther
          match pyStringify fuel σ3 (.arr remapped),
              pyStringify fuel σ3 (.arr remappedOther) with
          | .ok s1, .ok s2 => (.ok (hCompareStrings s1 s2 == 0), σ3)
          | .error e, _ => (.error e, σ3)
          | _, .error e => (.error e, σ3)
  | .dict _, _ =>
    (.error (.valueError "Incorrect JSON objects passed to are_sorted_workflows_equal()!"), σ)
  | _, _ =>
    (.error (.valueError "Incorrect JSON objects passed to are_sorted_workflows_equal()!"), σ)

/-- The frame property: every pre-existing heap object is unchanged (the
store only grew, and all old addresses read back identically). -/
def storePreserved (σ σ1 : Store) : Prop :=
  σ.length ≤ σ1.length ∧ ∀ i, i < σ.length → σ1[i]? = σ[i]?

/-- Preservation is reflexive. -/
theorem sp_refl (σ : Store) : storePreserved σ σ :=
  ⟨le_refl _, fun _ _ => rfl⟩

/-- Preservation composes. -/
theorem sp_trans {σ1 σ2 σ3 : Store} (h1 : storePreserved σ1 σ2)
    (h2 : storePreserved σ2 σ3) : storePreserved σ1 σ3 :=
  ⟨le_trans h1.1 h2.1, fun i hi => by
    rw [h2.2 i (lt_of_lt_of_le hi h1.1), h1.2 i hi]⟩

/-- Allocation preserves the old store. -/
theorem sp_append (σ : Store) (l : List (List (String × HVal))) :
    storePreserved σ (σ ++ l) :=
  ⟨by simp, fun i hi => List.getElem?_append_left hi⟩

/-- Writing at a fresh address preserves the old store. -/
theorem sp_set_ge {σ0 σ : Store} (a : Nat) (v : List (String × HVal))
    (hsp : storePreserved σ0 σ) (ha : σ0.length ≤ a) :
    storePreserved σ0 (σ.set a v) :=
  ⟨by rw [List.length_set]; exact hsp.1, fun i hi => by
    rw [List.getElem?_set_ne (by omega : a ≠ i)]
    exact hsp.2 i hi⟩

/-- A value whose top-level dict address (if any) is fresh relative to
boundary `n`. -/
def topFresh (n : Nat) : HVal → Prop
  | .dict a => n ≤ a
  | _ => True

/-- Freshness is antitone in the boundary. -/
theorem topFresh_mono {n m : Nat} (h : n ≤ m) {v : HVal} (hv : topFresh m v) :
    topFresh n v := by
  cases v <;> simp only [topFresh] at hv ⊢
  omega

/-- `clear_inputs` on a value that is fresh (or not a dict) preserves the old
store. -/
theorem sp_clearInputs {σ0 σ : Store} (node : HVal)
    (hsp : storePreserved σ0 σ) (hfr : topFresh σ0.length node) :
    storePreserved σ0 (pyClearInputs σ node) := by
  cases node with
  | dict a =>
    simp only [topFresh] at hfr
    exact sp_set_ge a _ (sp_trans hsp (sp_append σ [[]])) hfr
  | str s => exact hsp
  | int n => exact hsp
  | float q => exact hsp
  | bool b => exact hsp
  | arr l => exact hsp

/-- `pyStripNode` only allocates and writes fresh dicts. -/
theorem pyStripNode_sp (σ : Store) (node : HVal) :
    storePreserved σ (pyStripNode σ node).2 := by
  cases node with
  | dict a =>
    simp only [pyStripNode]
    cases hg : hDictGet (dictRead σ a) INPUTS_KEY with
    | none => exact sp_append σ _
    | some inputs =>
      cases inputs with
      | dict ia =>
        dsimp only
        exact sp_set_ge _ _ (sp_trans (sp_append σ _) (sp_append _ _)) (by simp)
      | str s => exact sp_append σ _
      | int n => exact sp_append σ _
      | float q => exact sp_append σ _
      | bool b => exact sp_append σ _
      | arr l => exact sp_append σ _
  | str s => exact sp_refl σ
  | int n => exact sp_refl σ
  | float q => exact sp_refl σ
  | bool b => exact sp_refl σ
  | arr l => exact sp_refl σ

/-- `pyStripMetadata` only allocates and writes fresh dicts. -/
theorem pyStripMetadata_sp (σ : Store) (nodes : List (String × HVal)) :
    storePreserved σ (pyStripMetadata σ nodes).2 := by
  induction nodes generalizing σ with
  | nil => exact sp_refl σ
  | cons p rest ih =>
    obtain ⟨nodeId, nodeObj⟩ := p
    simp only [pyStripMetadata]
    cases hn : pyStripNode σ nodeObj with
    | mk r1 σ1 =>
      have h1 : storePreserved σ σ1 := by
        have := pyStripNode_sp σ nodeObj
        rw [hn] at this
        exact this
      cases r1 with
      | error e => exact h1
      | ok n =>
        dsimp only
        cases hr : pyStripMetadata σ1 rest with
        | mk r2 σ2 =>
          have h2 : storePreserved σ1 σ2 := by
            have := ih σ1
            rw [hr] at this
            exact this
          cases r2 with
          | error e => exact sp_trans h1 h2
          | ok r => exact sp_trans h1 h2

mutual

/-- Heap canonicalization only allocates. -/
theorem pyCanonicalize_sp : ∀ (fuel : Nat) (σ : Store) (v : HVal),
    storePreserved σ (pyCanonicalize fuel σ v).2
  | 0, σ, v => by
    simp only [pyCanonicalize]
    exact sp_refl σ
  | fuel + 1, σ, v => by
    cases v with
    | dict a =>
      simp only [pyCanonicalize]
      cases hp : pyCanonPairs fuel σ (dictRead σ a) with
      | mk r1 σ1 =>
        have h1 : storePreserved σ σ1 := by
          have := pyCanonPairs_sp fuel σ (dictRead σ a)
          rw [hp] at this
          exact this
        cases r1 with
        | error e => exact h1
        | ok cps => exact sp_trans h1 (sp_append σ1 _)
    | arr l =>
      simp only [pyCanonicalize]
      cases hp : pyCanonList fuel σ l with
      | mk r1 σ1 =>
        have h1 : storePreserved σ σ1 := by
          have := pyCanonList_sp fuel σ l
          rw [hp] at this
          exact this
        cases r1 with
        | error e => exact h1
        | ok xs => exact h1
    | str s => simp only [pyCanonicalize]; exact sp_refl σ
    | int n => simp only [pyCanonicalize]; exact sp_refl σ
    | float q => simp only [pyCanonicalize]; exact sp_refl σ
    | bool b => simp only [pyCanonicalize]; exact sp_refl σ
termination_by fuel _ _ => (fuel, 0)

/-- Heap canonicalization of list elements only allocates. -/
theorem pyCanonList_sp : ∀ (fuel : Nat) (σ : Store) (l : List HVal),
    storePreserved σ (pyCanonList fuel σ l).2
  | fuel, σ, [] => by
    simp only [pyCanonList]
    exact sp_refl σ
  | fuel, σ, x :: xs => by
    simp only [pyCanonList]
    cases hx : pyCanonicalize fuel σ x with
    | mk r1 σ1 =>
      have h1 : storePreserved σ σ1 := by
        have := pyCanonicalize_sp fuel σ x
        rw [hx] at this
        exact this
      cases r1 with
      | error e => exact h1
      | ok x1 =>
        dsimp only
        cases hxs : pyCanonList fuel σ1 xs with
        | mk r2 σ2 =>
          have h2 : storePreserved σ1 σ2 := by
            have := pyCanonList_sp fuel σ1 xs
            rw [hxs] at this
            exact this
          cases r2 with
          | error e => exact sp_trans h1 h2
          | ok xs1 => exact sp_trans h1 h2
termination_by fuel _ l => (fuel, l.length + 1)

/-- Heap canonicalization of dict entries only allocates. -/
theorem pyCanonPairs_sp : ∀ (fuel : Nat) (σ : Store) (l : List (String × HVal)),
    storePreserved σ (pyCanonPairs fuel σ l).2
  | fuel, σ, [] => by
    simp only [pyCanonPairs]
    exact sp_refl σ
  | fuel, σ, (k, v) :: xs => by
    simp only [pyCanonPairs]
    cases hx : pyCanonicalize fuel σ v with
    | mk r1 σ1 =>
      have h1 : storePreserved σ σ1 := by
        have := pyCanonicalize_sp fuel σ v
        rw [hx] at this
        exact this
      cases r1 with
      | error e => exact h1
      | ok v1 =>
        dsimp only
        cases hxs : pyCanonPairs fuel σ1 xs with
        | mk r2 σ2 =>
          have h2 : storePreserved σ1 σ2 := by
            have := pyCanonPairs_sp fuel σ1 xs
            rw [hxs] at this
            exact this
          cases r2 with
          | error e => exact sp_trans h1 h2
          | ok xs1 => exact sp_trans h1 h2
termination_by fuel _ l => (fuel, l.length + 1)

end

/-- `pyRemapNode` only allocates and writes fresh dicts, and every node it
returns is a fresh copy (or not a dict at all). -/
theorem pyRemapNode_sp (σ : Store) (m : List (String × Nat)) (node : HVal) :
    storePreserved σ (pyRemapNode σ m node).2 ∧
    (∀ v, (pyRemapNode σ m node).1 = .ok v → topFresh σ.length v) := by
  cases node with
  | dict a =>
    simp only [pyRemapNode]
    cases hg : hDictGet (dictRead σ a) INPUTS_KEY with
    | none => exact ⟨sp_append σ _, fun v hv => by cases hv⟩
    | some inputs =>
      cases inputs with
      | dict ia =>
        dsimp only
        cases hri : hRemapInputs m (dictRead (σ ++ [dictRead σ a]) ia) with
        | error e => exact ⟨sp_append σ _, fun v hv => by cases hv⟩
        | ok ri =>
          refine ⟨sp_set_ge _ _ (sp_trans (sp_append σ _) (sp_append _ _)) (by simp), ?_⟩
          intro v hv
          injection hv with hv
          subst hv
          exact le_refl σ.length
      | str s => exact ⟨sp_append σ _, fun v hv => by cases hv⟩
      | int n => exact ⟨sp_append σ _, fun v hv => by cases hv⟩
      | float q => exact ⟨sp_append σ _, fun v hv => by cases hv⟩
      | bool b => exact ⟨sp_append σ _, fun v hv => by cases hv⟩
      | arr l => exact ⟨sp_append σ _, fun v hv => by cases hv⟩
  | str s => exact ⟨sp_refl σ, fun v hv => by injection hv with hv; subst hv; trivial⟩
  | int n => exact ⟨sp_refl σ, fun v hv => by injection hv with hv; subst hv; trivial⟩
  | float q => exact ⟨sp_refl σ, fun v hv => by injection hv with hv; subst hv; trivial⟩
  | bool b => exact ⟨sp_refl σ, fun v hv => by injection hv with hv; subst hv; trivial⟩
  | arr l => exact ⟨sp_refl σ, fun v hv => by injection hv with hv; subst hv; trivial⟩

/-- An indexed read returns an element of the list or the default. -/
theorem getD_mem_or_default (l : List HVal) (i : Nat) (d : HVal) :
    l.getD i d ∈ l ∨ l.getD i d = d := by
  rw [List.getD_eq_getElem?_getD]
  cases h : l[i]? with
  | some x =>
    simp only [Option.getD_some]
    exact Or.inl (List.getElem?_mem h)
  | none => simp only [Option.getD_none]; exact Or.inr trivial

/-- The ignore loop writes only to the fresh remapped copies. -/
theorem pyApplyIgnored_sp (σ0 : Store) :
    ∀ (ignored : List Nat) (σ : Store) (remapped other : List HVal),
    storePreserved σ0 σ →
    (∀ v ∈ remapped, topFresh σ0.length v) →
    (∀ v ∈ other, topFresh σ0.length v) →
    storePreserved σ0 (pyApplyIgnored σ ignored remapped other)
  | [], σ, _, _, hsp, _, _ => hsp
  | i :: rest, σ, remapped, other, hsp, hfr, hfro => by
    simp only [pyApplyIgnored]
    have hv1 : topFresh σ0.length (remapped.getD i (.int 0)) := by
      rcases getD_mem_or_default remapped i (.int 0) with hm | hd
      · exact hfr _ hm
      · rw [hd]; trivial
    have hv2 : topFresh σ0.length (other.getD i (.int 0)) := by
      rcases getD_mem_or_default other i (.int 0) with hm | hd
      · exact hfro _ hm
      · rw [hd]; trivial
    have h1 : storePreserved σ0 (pyClearInputs σ (remapped.getD i (.int 0))) :=
      sp_clearInputs _ hsp hv1
    have h2 : storePreserved σ0
        (if i < other.length then
          pyClearInputs (pyClearInputs σ (remapped.getD i (.int 0)))
            (other.getD i (.int 0))
         else pyClearInputs σ (remapped.getD i (.int 0))) := by
      split
      · exact sp_clearInputs _ h1 hv2
      · exact h1
    exact pyApplyIgnored_sp σ0 rest _ remapped other h2 hfr hfro

/-- The remap loop only allocates and writes fresh dicts, and every node in
its result is fresh (or not a dict). -/
theorem pyRemapNodes_sp (m : List (String × Nat)) :
    ∀ (σ : Store) (nodes : List (String × HVal)),
    storePreserved σ (pyRemapNodes σ m nodes).2 ∧
    (∀ vs, (pyRemapNodes σ m nodes).1 = .ok vs → ∀ v ∈ vs, topFresh σ.length v)
  | σ, [] => ⟨sp_refl σ, fun vs hvs => by
      injection hvs with hvs
      subst hvs
      intro v hv
      cases hv⟩
  | σ, (nodeId, nodeObj) :: rest => by
    simp only [pyRemapNodes]
    cases hn : pyRemapNode σ m nodeObj with
    | mk r1 σ1 =>
      have h1 : storePreserved σ σ1 ∧
          ∀ v, r1 = .ok v → topFresh σ.length v := by
        have := pyRemapNode_sp σ m nodeObj
        rw [hn] at this
        exact this
      cases r1 with
      | error e => exact ⟨h1.1, fun vs hvs => by cases hvs⟩
      | ok n =>
        dsimp only
        cases hr : pyRemapNodes σ1 m rest with
        | mk r2 σ2 =>
          have h2 : storePreserved σ1 σ2 ∧
              ∀ vs, r2 = .ok vs → ∀ v ∈ vs, topFresh σ1.length v := by
            have := pyRemapNodes_sp m σ1 rest
            rw [hr] at this
            exact this
          cases r2 with
          | error e => exact ⟨sp_trans h1.1 h2.1, fun vs hvs => by cases hvs⟩
          | ok r =>
            refine ⟨sp_trans h1.1 h2.1, fun vs hvs => ?_⟩
            injection hvs with hvs
            subst hvs
            intro v hv
            rcases List.mem_cons.mp hv with rfl | htail
            · exact h1.2 v rfl
            · exact topFresh_mono h1.1.1 (h2.2 r rfl v htail)

/-- `remap_node_ids` only allocates and writes fresh dicts, and its node list
is fresh. -/
theorem pyRemapNodeIds_sp (σ : Store) (workflow : List (String × HVal)) :
    storePreserved σ (pyRemapNodeIds σ workflow).2 ∧
    (∀ vs m2, (pyRemapNodeIds σ workflow).1 = .ok (vs, m2) →
      ∀ v ∈ vs, topFresh σ.length v) := by
  simp only [pyRemapNodeIds]
  cases hn : pyRemapNodes σ (hIdMapping workflow) workflow with
  | mk r1 σ1 =>
    have h1 := pyRemapNodes_sp (hIdMapping workflow) σ workflow
    rw [hn] at h1
    cases r1 with
    | error e => exact ⟨h1.1, fun vs m2 hvs => by cases hvs⟩
    | ok nodes =>
      refine ⟨h1.1, fun vs m2 hvs => ?_⟩
      injection hvs with hvs
      injection hvs with hv1 hv2
      subst hv1
      exact h1.2 nodes rfl

/-- `sort_workflow` never writes to a pre-existing heap object. -/
theorem pySortWorkflow_sp (fuel : Nat) (σ : Store) (w : HVal) :
    storePreserved σ (pySortWorkflow fuel σ w).2 := by
  cases w with
  | dict a =>
    simp only [pySortWorkflow]
    cases hs : pyStripMetadata σ (dictRead σ a) with
    | mk r1 σ1 =>
      have h1 : storePreserved σ σ1 := by
        have := pyStripMetadata_sp σ (dictRead σ a)
        rw [hs] at this
        exact this
      cases r1 with
      | error e => exact h1
      | ok stripped =>
        dsimp only
        cases hc : pyCanonPairs fuel (σ1 ++ [stripped]) stripped with
        | mk r2 σ2 =>
          have h2 : storePreserved σ σ2 := by
            have := pyCanonPairs_sp fuel (σ1 ++ [stripped]) stripped
            rw [hc] at this
            exact sp_trans (sp_trans h1 (sp_append σ1 _)) this
          cases r2 with
          | error e => exact h2
          | ok canonical =>
            dsimp only
            cases hk : canonical.mapM (fun p => pyStringify fuel (σ2 ++ [canonical]) p.2) with
            | error e => exact sp_trans h2 (sp_append σ2 _)
            | ok keys => exact sp_trans h2 (sp_trans (sp_append σ2 _) (sp_append _ _))
  | str s => exact sp_refl σ
  | int n => exact sp_refl σ
  | float q => exact sp_refl σ
  | bool b => exact sp_refl σ
  | arr l => exact sp_refl σ

/-- `are_sorted_workflows_equal` never writes to a pre-existing heap object:
its clearing of ignored inputs hits only the fresh node copies made by the
remap. -/
theorem pyAreSortedWorkflowsEqual_sp (fuel : Nat) (σ : Store) (w ow : HVal)
    (ignoredNodes : List String) :
    storePreserved σ (pyAreSortedWorkflowsEqual fuel σ w ow ignoredNodes).2 := by
  cases w with
  | dict aw =>
    cases ow with
    | dict aow =>
      simp only [pyAreSortedWorkflowsEqual]
      cases h1 : pyRemapNodeIds σ (dictRead σ aw) with
      | mk r1 σ1 =>
        have hsp1 := pyRemapNodeIds_sp σ (dictRead σ aw)
        rw [h1] at hsp1
        cases r1 with
        | error e => exact hsp1.1
        | ok p1 =>
          obtain ⟨remapped, m⟩ := p1
          dsimp only
          cases hli : hLookupIgnored m ignoredNodes with
          | error e => exact hsp1.1
          | ok remappedIgnored =>
            dsimp only
            cases h2 : pyRemapNodeIds σ1 (dictRead σ1 aow) with
            | mk r2 σ2 =>
              have hsp2 := pyRemapNodeIds_sp σ1 (dictRead σ1 aow)
              rw [h2] at hsp2
              cases r2 with
              | error e => exact sp_trans hsp1.1 hsp2.1
              | ok p2 =>
                obtain ⟨remappedOther, m2⟩ := p2
                dsimp only
                have hfr : ∀ v ∈ remapped, topFresh σ.length v :=
                  hsp1.2 remapped m rfl
                have hfro : ∀ v ∈ remappedOther, topFresh σ.length v :=
                  fun v hv => topFresh_mono hsp1.1.1 (hsp2.2 remappedOther m2 rfl v hv)
                have h3 : storePreserved σ
                    (pyApplyIgnored σ2 remappedIgnored remapped remappedOther) :=
                  pyApplyIgnored_sp σ remappedIgnored σ2 remapped remappedOther
                    (sp_trans hsp1.1 hsp2.1) hfr hfro
                cases pyStringify fuel
                    (pyApplyIgnored σ2 remappedIgnored remapped remappedOther)
                    (.arr remapped) with
                | error e =>
                  cases pyStringify fuel
                      (pyApplyIgnored σ2 remappedIgnored remapped remappedOther)
                      (.arr remappedOther) with
                  | error e2 => exact h3
                  | ok s2 => exact h3
                | ok s1 =>
                  cases pyStringify fuel
                      (pyApplyIgnored σ2 remappedIgnored remapped remappedOther)
                      (.arr remappedOther) with
                  | error e2 => exact h3
                  | ok s2 => exact h3
    | str s => exact sp_refl σ
    | int n => exact sp_refl σ
    | float q => exact sp_refl σ
    | bool b => exact sp_refl σ
    | arr l => exact sp_refl σ
  | str s => exact sp_refl σ
  | int n => exact sp_refl σ
  | float q => exact sp_refl σ
  | bool b => exact sp_refl σ
  | arr l => exact sp_refl σ

/-- C10.  `sort_workflow` and `are_sorted_workflows_equal` never mutate their
workflow arguments: under the heap model (dicts as store addresses, matching
Python aliasing), every call leaves every pre-existing heap object unchanged
— the store only grows, node objects are copied before their `inputs` is
rewritten, and the ignore-list clearing writes only to those fresh copies.
In particular every dict of the argument graphs reads back unchanged. -/
theorem c10_no_mutation :
    (∀ (fuel : Nat) (σ : Store) (w : HVal),
      storePreserved σ (pySortWorkflow fuel σ w).2) ∧
    (∀ (fuel : Nat) (σ : Store) (w ow : HVal) (ignoredNodes : List String),
      storePreserved σ (pyAreSortedWorkflowsEqual fuel σ w ow ignoredNodes).2) ∧
    (∀ (fuel : Nat) (σ : Store) (w ow : HVal) (ignoredNodes : List String)
      (addr : Nat), addr < σ.length →
      dictRead (pyAreSortedWorkflowsEqual fuel σ w ow ignoredNodes).2 addr =
        dictRead σ addr) := by
  refine ⟨pySortWorkflow_sp, pyAreSortedWorkflowsEqual_sp, ?_⟩
  intro fuel σ w ow ignoredNodes addr haddr
  have hsp := pyAreSortedWorkflowsEqual_sp fuel σ w ow ignoredNodes
  unfold dictRead
  rw [List.getD_eq_getElem?_getD, List.getD_eq_getElem?_getD, hsp.2 addr haddr]

/-- Closed instance for C10: a one-node graph compared against itself with
its node in the ignore list — the clearing hits only the remapped copies, and
the original node and inputs dicts read back unchanged. -/
theorem c10_no_mutation_witness :
    dictRead (pyAreSortedWorkflowsEqual 6
      [[("n", HVal.dict 1)], [("inputs", HVal.dict 2)], [("x", HVal.int 1)]]
      (HVal.dict 0) (HVal.dict 0) ["n"]).2 0 =
      dictRead [[("n", HVal.dict 1)], [("inputs", HVal.dict 2)], [("x", HVal.int 1)]] 0 ∧
    dictRead (pyAreSortedWorkflowsEqual 6
      [[("n", HVal.dict 1)], [("inputs", HVal.dict 2)], [("x", HVal.int 1)]]
      (HVal.dict 0) (HVal.dict 0) ["n"]).2 1 =
      dictRead [[("n", HVal.dict 1)], [("inputs", HVal.dict 2)], [("x", HVal.int 1)]] 1 :=
  ⟨c10_no_mutation.2.2 6 _ (HVal.dict 0) (HVal.dict 0) ["n"] 0 (by decide),
   c10_no_mutation.2.2 6 _ (HVal.dict 0) (HVal.dict 0) ["n"] 1 (by decide)⟩
